import Mathlib

/-!
Shallow embedding of the OpenPNM property-store and query layer
(`src/openpnm/core/Base.py`), of the generic conductance model
(`src/openpnm/models/physics/misc.py`), and of the conductance-matrix
assembler described in the specification (the transport solver sources are
not part of this snapshot, so the assembler is modelled from the spec).

The `Base` class is a `dict` subclass holding numpy arrays under string
keys.  Arrays are either boolean (labels) or numeric (properties); numeric
values are modelled by integers, which is faithful for every shape/length
property proved here.  The dict is modelled as an insertion-ordered
association list with unique keys.
-/

namespace OpenPNM

/-- A stored numpy 1-d array: boolean arrays are labels, numeric arrays are
properties (numeric entries modelled as integers). -/
inductive Entry where
  | boolArr : List Bool → Entry
  | numArr : List Int → Entry
deriving DecidableEq

/-- `sp.shape(value)[0]` of a stored 1-d array. -/
def entryLen : Entry → Nat
  | .boolArr xs => xs.length
  | .numArr xs => xs.length

/-- `value.dtype == bool` for a stored array. -/
def isBoolE : Entry → Bool
  | .boolArr _ => true
  | .numArr _ => false

/-- The dict contents of a `Base` object: insertion-ordered association list
with unique keys (python dict semantics). -/
abbrev Store := List (String × Entry)

/-- Plain dict lookup `dict.__getitem__` (as an `Option`). -/
def getk : Store → String → Option Entry
  | [], _ => none
  | (k, w) :: rest, key => if k == key then some w else getk rest key

/-- Plain dict write `dict.__setitem__` (update in place, else append). -/
def setRaw : Store → String → Entry → Store
  | [], key, v => [(key, v)]
  | (k, w) :: rest, key, v =>
    if k == key then (key, v) :: rest else (k, w) :: setRaw rest key v

/-- Plain dict `del` of a key (no-op when absent). -/
def delk : Store → String → Store
  | [], _ => []
  | (k, w) :: rest, key => if k == key then rest else (k, w) :: delk rest key

/-- `self.keys()`. -/
def skeys (s : Store) : List String := s.map Prod.fst

/-! Python string helpers, defined over the character list of a `String` so
that they compute and can be reasoned about by induction. -/

/-- Python `s.split(c)` for a single-character separator `c`. -/
def splitOnChar (c : Char) : List Char → List (List Char)
  | [] => [[]]
  | x :: rest =>
    let r := splitOnChar c rest
    if x == c then [] :: r
    else
      match r with
      | h :: t => (x :: h) :: t
      | [] => [[x]]

/-- Python `key.split(".")` on strings. -/
def pySplitDot (s : String) : List String :=
  (splitOnChar (Char.ofNat 46) s.data).map (fun cs => String.mk cs)

/-- Python `key.split(".")[0]`. -/
def headComp (s : String) : String := (pySplitDot s).headD ""

/-- Python `key.split(".")[-1]`. -/
def lastComp (s : String) : String := (pySplitDot s).getLastD ""

/-- Python `c in s` for a single character. -/
def charIn (c : Char) (s : String) : Bool := s.data.contains c

/-- Boolean test that the character list `p` starts the character list `l`. -/
def listPre : List Char → List Char → Bool
  | [], _ => true
  | _ :: _, [] => false
  | a :: as, b :: bs => a == b && listPre as bs

/-- Boolean test that the character list `p` ends the character list `l`. -/
def listSuf (p l : List Char) : Bool := listPre p.reverse l.reverse

/-- Boolean test that `p` occurs contiguously inside `l` (python `p in l`). -/
def listSub (p : List Char) : List Char → Bool
  | [] => p.isEmpty
  | x :: rest => listPre p (x :: rest) || listSub p rest

/-- Python `needle in hay` on strings (substring containment). -/
def strSub (needle hay : String) : Bool := listSub needle.data hay.data

/-- Python `s.startswith(p)`. -/
def strStarts (s p : String) : Bool := listPre p.data s.data

/-- Python `s.endswith(p)`. -/
def strEnds (s p : String) : Bool := listSuf p.data s.data

/-- Python `s.strip(c)`: remove every leading and trailing occurrence of `c`. -/
def pyStrip (c : Char) (s : String) : String :=
  String.mk (((s.data.dropWhile (fun x => x == c)).reverse.dropWhile
    (fun x => x == c)).reverse)

/-- Python `s.lower()`. -/
def toLowerStr (s : String) : String := String.mk (s.data.map Char.toLower)

/-- Python `s.rsplit(c, maxsplit=1)[0]`: everything before the last
occurrence of `c`, or `s` itself when `c` does not occur. -/
def beforeLastChar (c : Char) (s : String) : String :=
  if s.data.contains c then
    String.mk (((s.data.reverse.dropWhile (fun x => x != c)).drop 1).reverse)
  else s

/-- The in-place duplicate-removal idiom
`[lst.remove(L) for L in lst if lst.count(L) > 1]` used by the parsers:
a python for-loop advances its index once per iteration while `remove`
deletes the first occurrence of the current element.  The fuel argument is
the initial list length, which bounds the number of loop iterations. -/
def pyDedupGo : Nat → List String → Nat → List String
  | 0, l, _ => l
  | fuel + 1, l, i =>
    if h : i < l.length then
      if 1 < l.count (l.get ⟨i, h⟩) then pyDedupGo fuel (l.erase (l.get ⟨i, h⟩)) (i + 1)
      else pyDedupGo fuel l (i + 1)
    else l

/-- Duplicate removal as performed by `_parse_element` / `_parse_mode` /
`_parse_labels`. -/
def pyDedup (l : List String) : List String := pyDedupGo l.length l 0

/-! `Base._parse_element`, `Base._parse_mode`, `Base._count`. -/

def allowedElems : List String := ["pore", "throat"]

/-- One item of `_parse_element`: `item.split(".")[0]`, lower-cased, with
the trailing `s`-suffix stripped (`item.rsplit("s", 1)[0]`). -/
def normElem (item : String) : String :=
  beforeLastChar (Char.ofNat 115) (toLowerStr (headComp item))

/-- `Base._parse_element` (list form, `single=False`); `none` stands for the
python default `element=None` meaning both element kinds. -/
def parseElementList (element : Option (List String)) : Except String (List String) :=
  let elems := element.getD ["pore", "throat"]
  let es := elems.map normElem
  if es.all (fun e => allowedElems.contains e) then
    Except.ok (pyDedup es)
  else
    Except.error "Invalid element received"

/-- `Base._parse_element` with `single=True` on a single string. -/
def parseElementSingle (element : String) : Except String String :=
  match parseElementList (some [element]) with
  | .error e => .error e
  | .ok [e] => Except.ok e
  | .ok _ => Except.error "Both elements received when single element allowed"

/-- `Base._parse_mode` (list form, `single=False`). -/
def parseModeList (allowed : List String) (modes : List String) :
    Except String (List String) :=
  if modes.all (fun m => allowed.contains m) then
    Except.ok (pyDedup modes)
  else
    Except.error "mode must be one of the allowed modes"

/-- `Base._parse_mode` with `single=True` on a single string. -/
def parseModeSingle (allowed : List String) (mode : String) : Except String String :=
  match parseModeList allowed [mode] with
  | .error e => .error e
  | .ok [m] => Except.ok m
  | .ok _ => Except.error "Multiple modes received when only one mode allowed"

/-- `Base._count(element)` for a single already-parsed element string: the
size of the `element.all` array (`KeyError` when that key is missing).
The python method re-parses the element and builds a one-entry dict; the
multi-element dict case is never reached from `__setitem__`. -/
def count (s : Store) (element : String) : Except String Nat :=
  match parseElementList (some [element]) with
  | .error e => .error e
  | .ok [e] =>
    match getk s (e ++ ".all") with
    | some x => Except.ok (entryLen x)
    | none => Except.error ("KeyError: " ++ e ++ ".all")
  | .ok _ => Except.error "count of multiple elements not used by setitem"

/-! `Base.__init__` and `Base.__setitem__`. -/

/-- `Base.__init__(Np, Nt)`: seeds `pore.all = ones(Np, bool)` and
`throat.all = ones(Nt, bool)` through `dict.update`, which bypasses the
subclassed `__setitem__`. -/
def init (np nt : Nat) : Store :=
  setRaw (setRaw [] "pore.all" (.boolArr (List.replicate np true)))
    "throat.all" (.boolArr (List.replicate nt true))

/-- The scalar broadcast `sp.ones((count,), dtype=value.dtype) * value`
performed by `__setitem__` on a length-1 array. -/
def broadcastScalar (n : Nat) : Entry → Entry
  | .boolArr xs => .boolArr ((List.replicate n true).map (fun o => o && xs.headD false))
  | .numArr xs => .numArr ((List.replicate n (1 : Int)).map (fun o => o * xs.headD 0))

/-- `Base.__setitem__(key, value)`.  The caller-side numpy conversion
`sp.array(value, ndmin=1)` means a python scalar arrives here as a
length-1 array.  An `Except.error` models an exception raised before any
mutation, so the dict is unchanged on error. -/
def setitem (s : Store) (key : String) (value : Entry) : Except String Store :=
  if headComp key == "constant" then
    Except.ok (setRaw s key value)
  else
    match parseElementSingle (headComp key) with
    | .error e => .error e
    | .ok element =>
      if key == "pore.coords" || key == "throat.conns" then
        Except.ok (setRaw s key value)
      else
        match (pySplitDot key).get? 1 with
        | none => Except.error "IndexError: list index out of range"
        | some second =>
          if second == "all" then
            -- protected keys: write only when absent or currently zero-length
            if (skeys s).contains key then
              if entryLen ((getk s key).getD (.boolArr [])) == 0 then
                Except.ok (setRaw s key value)
              else
                Except.ok s  -- logger.warning: key is already defined
            else
              Except.ok (setRaw s key value)
          else
            match count s element with
            | .error e => .error e
            | .ok n =>
              if entryLen value == 1 then
                -- broadcast scalar value into vector
                Except.ok (setRaw s key (broadcastScalar n value))
              else if entryLen value == n then
                Except.ok (setRaw s key value)
              else if n == 0 then
                -- growing from empty: self.update bypasses the checks
                Except.ok (setRaw s key value)
              else
                Except.error ("Cannot write an array, wrong length: " ++ key)

/-! `Base.props` and `Base.clear`. -/

/-- `Base.props(element, mode)` as reachable from `Base.clear`: `Base` has
no `models` attribute, so `hasattr(self, "models")` is false and only the
`data` contribution (all keys) applies; label (boolean) arrays are always
filtered out at the end. -/
def props (s : Store) (element : Option (List String)) (mode : List String) :
    Except String (List String) :=
  match parseModeList ["all", "data", "models", "constants"] mode with
  | .error e => .error e
  | .ok mode =>
    let mode := if mode.contains "all" then ["all", "data", "models", "constants"] else mode
    match parseElementList element with
    | .error e => .error e
    | .ok elems =>
      let vals := if mode.contains "data" then skeys s else []
      let vals := vals.filter (fun i => elems.contains (headComp i))
      let vals := vals.filter (fun i => !(isBoolE ((getk s i).getD (.boolArr []))))
      Except.ok vals

/-- The deletion loop of `Base.clear`:
`for item in props: if item not in ["pore.all", "throat.all"]: del self[item]`. -/
def clearDel (ps : List String) (s : Store) : Store :=
  ps.foldl (fun acc item =>
    if item == "pore.all" || item == "throat.all" then acc else delk acc item) s

/-- `Base.clear(element, mode)`. -/
def clear (s : Store) (element : Option (List String)) (mode : List String) :
    Except String Store :=
  match parseModeList ["constants", "labels", "models", "all"] mode with
  | .error e => .error e
  | .ok mode =>
    match props s element mode with
    | .error e => .error e
    | .ok ps => Except.ok (clearDel ps s)

/-- One mutating store operation: a property/label write (`__setitem__`) or
a `clear` call. -/
inductive Op where
  | set : String → Entry → Op
  | clr : Option (List String) → List String → Op

/-- The store left behind by an operation that may raise: on success the
new store, on an exception the unchanged one (both `__setitem__` and
`clear` raise before their first mutation). -/
def orElseStore (r : Except String Store) (s : Store) : Store :=
  match r with
  | .ok t => t
  | .error _ => s

/-- Run one operation. -/
def step (s : Store) : Op → Store
  | .set key v => orElseStore (setitem s key v) s
  | .clr element mode => orElseStore (clear s element mode) s

/-- Run a sequence of operations from a starting store. -/
def run (s : Store) (ops : List Op) : Store := ops.foldl step s

/-! Basic dict lemmas. -/

theorem mem_skeys (s : Store) (k : String) : k ∈ skeys s ↔ ∃ w, (k, w) ∈ s := by
  simp [skeys]

theorem getk_setRaw_self (s : Store) (k : String) (v : Entry) :
    getk (setRaw s k v) k = some v := by
  induction s with
  | nil => simp [setRaw, getk]
  | cons p rest ih =>
    obtain ⟨a, w⟩ := p
    by_cases h : a = k
    · simp [setRaw, getk, h]
    · simp [setRaw, getk, h, ih]

theorem getk_setRaw_ne (s : Store) (k k2 : String) (v : Entry) (h : k2 ≠ k) :
    getk (setRaw s k v) k2 = getk s k2 := by
  induction s with
  | nil => simp [setRaw, getk, Ne.symm h]
  | cons p rest ih =>
    obtain ⟨a, w⟩ := p
    by_cases ha : a = k
    · subst ha
      simp [setRaw, getk, Ne.symm h]
    · simp [setRaw, getk, ha, ih]

theorem getk_delk_ne (s : Store) (k k2 : String) (h : k2 ≠ k) :
    getk (delk s k) k2 = getk s k2 := by
  induction s with
  | nil => simp [delk, getk]
  | cons p rest ih =>
    obtain ⟨a, w⟩ := p
    by_cases ha : a = k
    · subst ha
      simp [delk, getk, Ne.symm h]
    · simp [delk, getk, ha, ih]

theorem mem_setRaw (s : Store) (k k2 : String) (v w2 : Entry)
    (h : (k2, w2) ∈ setRaw s k v) : k2 = k ∨ (k2, w2) ∈ s := by
  induction s with
  | nil =>
    simp [setRaw] at h
    exact Or.inl h.1
  | cons p rest ih =>
    obtain ⟨a, w⟩ := p
    by_cases ha : a = k
    · subst ha
      simp [setRaw] at h
      rcases h with ⟨h1, _⟩ | h
      · exact Or.inl h1
      · exact Or.inr (List.mem_cons_of_mem _ h)
    · simp [setRaw, ha] at h
      rcases h with h | h
      · exact Or.inr (by simp [h])
      · rcases ih h with h | h
        · exact Or.inl h
        · exact Or.inr (List.mem_cons_of_mem _ h)

theorem mem_skeys_setRaw (s : Store) (k k2 : String) (v : Entry)
    (h : k2 ∈ skeys (setRaw s k v)) : k2 = k ∨ k2 ∈ skeys s := by
  rw [mem_skeys] at h
  obtain ⟨w2, h⟩ := h
  rcases mem_setRaw s k k2 v w2 h with h | h
  · exact Or.inl h
  · exact Or.inr ((mem_skeys s k2).2 ⟨w2, h⟩)

theorem mem_delk (s : Store) (k k2 : String) (w2 : Entry)
    (h : (k2, w2) ∈ delk s k) : (k2, w2) ∈ s := by
  induction s with
  | nil => simp [delk] at h
  | cons p rest ih =>
    obtain ⟨a, w⟩ := p
    by_cases ha : a = k
    · subst ha
      simp [delk] at h
      exact List.mem_cons_of_mem _ h
    · simp [delk, ha] at h
      rcases h with h | h
      · simp [h]
      · exact List.mem_cons_of_mem _ (ih h)

theorem mem_skeys_delk (s : Store) (k k2 : String)
    (h : k2 ∈ skeys (delk s k)) : k2 ∈ skeys s := by
  rw [mem_skeys] at h
  obtain ⟨w2, h⟩ := h
  exact (mem_skeys s k2).2 ⟨w2, mem_delk s k k2 w2 h⟩

theorem contains_skeys_of_getk (s : Store) (k : String) (w : Entry)
    (h : getk s k = some w) : (skeys s).contains k = true := by
  induction s with
  | nil => simp [getk] at h
  | cons p rest ih =>
    obtain ⟨a, w2⟩ := p
    by_cases ha : a = k
    · simp [skeys, ha]
    · simp [getk, ha] at h
      simpa [skeys] using Or.inr (by simpa [skeys] using ih h)

/-! Structural lemmas about the parsers and `__setitem__`. -/

theorem pyDedup_singleton (x : String) : pyDedup [x] = [x] := by
  simp [pyDedup, pyDedupGo, List.count_singleton]

theorem pyDedupGo_subset (fuel : Nat) : ∀ (l : List String) (i : Nat) (k : String),
    k ∈ pyDedupGo fuel l i → k ∈ l := by
  induction fuel with
  | zero =>
    intro l i k h
    simpa [pyDedupGo] using h
  | succ fuel ih =>
    intro l i k h
    rw [pyDedupGo] at h
    split at h
    · split at h
      · exact List.erase_subset _ _ (ih _ _ _ h)
      · exact ih _ _ _ h
    · exact h

theorem pyDedup_subset (l : List String) (k : String) (h : k ∈ pyDedup l) : k ∈ l :=
  pyDedupGo_subset _ _ _ _ h

theorem parseElementList_single (x : String) :
    parseElementList (some [x]) =
      (if allowedElems.contains (normElem x) then Except.ok [normElem x]
       else Except.error "Invalid element received") := by
  unfold parseElementList
  simp [pyDedup_singleton]

theorem parseElementSingle_ok (x e : String) (h : parseElementSingle x = .ok e) :
    e = normElem x ∧ allowedElems.contains e = true := by
  unfold parseElementSingle at h
  rw [parseElementList_single] at h
  by_cases hc : allowedElems.contains (normElem x) = true
  · rw [if_pos hc] at h
    simp at h
    exact ⟨h.symm, h ▸ hc⟩
  · rw [if_neg hc] at h
    simp at h

/-- The key discipline enforced by `__setitem__`: either the first
dot-component is literally `constant`, or it normalizes (lower-cased,
plural-`s` suffix stripped) to `pore` or `throat`. -/
def keyElemOK (k : String) : Bool :=
  headComp k == "constant" || allowedElems.contains (normElem (headComp k))

theorem setitem_ok_shape (s : Store) (key : String) (v : Entry) (t : Store)
    (h : setitem s key v = .ok t) :
    keyElemOK key = true ∧ (t = s ∨ ∃ w, t = setRaw s key w) := by
  unfold setitem at h
  by_cases hc : (headComp key == "constant") = true
  · rw [if_pos hc] at h
    refine ⟨by unfold keyElemOK; rw [hc]; rfl, ?_⟩
    cases h
    exact Or.inr ⟨v, rfl⟩
  · rw [if_neg hc] at h
    cases hE : parseElementSingle (headComp key) with
    | error e =>
      rw [hE] at h
      simp at h
    | ok element =>
      rw [hE] at h
      dsimp only at h
      obtain ⟨he1, he2⟩ := parseElementSingle_ok _ _ hE
      refine ⟨by unfold keyElemOK; rw [← he1, he2, Bool.or_true], ?_⟩
      by_cases h2 : (key == "pore.coords" || key == "throat.conns") = true
      · rw [if_pos h2] at h
        cases h
        exact Or.inr ⟨v, rfl⟩
      · rw [if_neg h2] at h
        cases hS : (pySplitDot key).get? 1 with
        | none =>
          rw [hS] at h
          simp at h
        | some second =>
          rw [hS] at h
          dsimp only at h
          by_cases h3 : (second == "all") = true
          · rw [if_pos h3] at h
            by_cases h4 : (skeys s).contains key = true
            · rw [if_pos h4] at h
              by_cases h5 : (entryLen ((getk s key).getD (.boolArr [])) == 0) = true
              · rw [if_pos h5] at h
                cases h
                exact Or.inr ⟨v, rfl⟩
              · rw [if_neg h5] at h
                cases h
                exact Or.inl rfl
            · rw [if_neg h4] at h
              cases h
              exact Or.inr ⟨v, rfl⟩
          · rw [if_neg h3] at h
            cases hN : count s element with
            | error e =>
              rw [hN] at h
              simp at h
            | ok n =>
              rw [hN] at h
              dsimp only at h
              by_cases h6 : (entryLen v == 1) = true
              · rw [if_pos h6] at h
                cases h
                exact Or.inr ⟨broadcastScalar n v, rfl⟩
              · rw [if_neg h6] at h
                by_cases h7 : (entryLen v == n) = true
                · rw [if_pos h7] at h
                  cases h
                  exact Or.inr ⟨v, rfl⟩
                · rw [if_neg h7] at h
                  by_cases h8 : (n == 0) = true
                  · rw [if_pos h8] at h
                    cases h
                    exact Or.inr ⟨v, rfl⟩
                  · rw [if_neg h8] at h
                    simp at h

theorem setitem_preserves_getk_ne (s : Store) (key k2 : String) (v : Entry) (t : Store)
    (h : setitem s key v = .ok t) (hk : k2 ≠ key) : getk t k2 = getk s k2 := by
  rcases (setitem_ok_shape s key v t h).2 with rfl | ⟨w, rfl⟩
  · rfl
  · exact getk_setRaw_ne s key k2 w hk

theorem setitem_special_noop_pore (s : Store) (m : Nat) (hm : 0 < m) (v : Entry)
    (hp : getk s "pore.all" = some (.boolArr (List.replicate m true))) :
    setitem s "pore.all" v = .ok s := by
  have hcon := contains_skeys_of_getk s "pore.all" _ hp
  have hred : setitem s "pore.all" v =
      (if (skeys s).contains "pore.all" = true then
        (if (entryLen ((getk s "pore.all").getD (.boolArr [])) == 0) = true then
          Except.ok (setRaw s "pore.all" v)
        else Except.ok s)
      else Except.ok (setRaw s "pore.all" v)) := rfl
  rw [hred, if_pos hcon, hp]
  simp [entryLen, Nat.pos_iff_ne_zero.mp hm]

theorem setitem_special_noop_throat (s : Store) (m : Nat) (hm : 0 < m) (v : Entry)
    (hp : getk s "throat.all" = some (.boolArr (List.replicate m true))) :
    setitem s "throat.all" v = .ok s := by
  have hcon := contains_skeys_of_getk s "throat.all" _ hp
  have hred : setitem s "throat.all" v =
      (if (skeys s).contains "throat.all" = true then
        (if (entryLen ((getk s "throat.all").getD (.boolArr [])) == 0) = true then
          Except.ok (setRaw s "throat.all" v)
        else Except.ok s)
      else Except.ok (setRaw s "throat.all" v)) := rfl
  rw [hred, if_pos hcon, hp]
  simp [entryLen, Nat.pos_iff_ne_zero.mp hm]

theorem entryLen_broadcastScalar (n : Nat) (e : Entry) :
    entryLen (broadcastScalar n e) = n := by
  cases e <;> simp [broadcastScalar, entryLen]

/-! Preservation of the protected `all` labels across arbitrary operation
sequences. -/

theorem clearDel_cons (item : String) (rest : List String) (s : Store) :
    clearDel (item :: rest) s =
      clearDel rest
        (if (item == "pore.all" || item == "throat.all") = true then s
         else delk s item) := by
  unfold clearDel
  simp only [List.foldl_cons]

theorem clearDel_preserves_special (ps : List String) (s : Store) (k : String)
    (hk : k = "pore.all" ∨ k = "throat.all") :
    getk (clearDel ps s) k = getk s k := by
  induction ps generalizing s with
  | nil => rfl
  | cons item rest ih =>
    rw [clearDel_cons]
    by_cases hi : (item == "pore.all" || item == "throat.all") = true
    · rw [if_pos hi]
      exact ih s
    · rw [if_neg hi]
      have hne : k ≠ item := by
        simp only [Bool.or_eq_true, beq_iff_eq] at hi
        push_neg at hi
        rcases hk with rfl | rfl
        · exact fun he => hi.1 he.symm
        · exact fun he => hi.2 he.symm
      rw [ih (delk s item)]
      exact getk_delk_ne s item k hne

theorem clear_ok_clearDel (s : Store) (e : Option (List String)) (m : List String)
    (t : Store) (h : clear s e m = .ok t) : ∃ ps, t = clearDel ps s := by
  unfold clear at h
  cases h1 : parseModeList ["constants", "labels", "models", "all"] m with
  | error msg =>
    rw [h1] at h
    simp at h
  | ok mode =>
    rw [h1] at h
    dsimp only at h
    cases h2 : props s e mode with
    | error msg =>
      rw [h2] at h
      simp at h
    | ok ps =>
      rw [h2] at h
      dsimp only at h
      cases h
      exact ⟨ps, rfl⟩

/-- The invariant of claim C5: the two `all` labels hold their creation-time
values. -/
def allInv (np nt : Nat) (s : Store) : Prop :=
  getk s "pore.all" = some (.boolArr (List.replicate np true)) ∧
  getk s "throat.all" = some (.boolArr (List.replicate nt true))

theorem step_preserves_allInv (np nt : Nat) (hnp : 0 < np) (hnt : 0 < nt)
    (s : Store) (op : Op) (h : allInv np nt s) : allInv np nt (step s op) := by
  obtain ⟨h1, h2⟩ := h
  cases op with
  | set key v =>
    simp only [step]
    cases hS : setitem s key v with
    | error e => exact ⟨h1, h2⟩
    | ok t =>
      simp only [orElseStore]
      constructor
      · by_cases hk : key = "pore.all"
        · subst hk
          rw [setitem_special_noop_pore s np hnp v h1] at hS
          cases hS
          exact h1
        · rw [setitem_preserves_getk_ne s key "pore.all" v t hS (Ne.symm hk)]
          exact h1
      · by_cases hk : key = "throat.all"
        · subst hk
          rw [setitem_special_noop_throat s nt hnt v h2] at hS
          cases hS
          exact h2
        · rw [setitem_preserves_getk_ne s key "throat.all" v t hS (Ne.symm hk)]
          exact h2
  | clr e m =>
    simp only [step]
    cases hC : clear s e m with
    | error _ => exact ⟨h1, h2⟩
    | ok t =>
      simp only [orElseStore]
      obtain ⟨ps, rfl⟩ := clear_ok_clearDel s e m t hC
      constructor
      · rw [clearDel_preserves_special ps s "pore.all" (Or.inl rfl)]
        exact h1
      · rw [clearDel_preserves_special ps s "throat.all" (Or.inr rfl)]
        exact h2

theorem run_preserves_allInv (np nt : Nat) (hnp : 0 < np) (hnt : 0 < nt)
    (ops : List Op) : ∀ s : Store, allInv np nt s → allInv np nt (run s ops) := by
  induction ops with
  | nil => exact fun s h => h
  | cons op rest ih =>
    intro s h
    exact ih (step s op) (step_preserves_allInv np nt hnp hnt s op h)

/-! Preservation of the key-naming discipline (claim C2 support). -/

theorem mem_skeys_clearDel (ps : List String) (s : Store) (k : String)
    (h : k ∈ skeys (clearDel ps s)) : k ∈ skeys s := by
  induction ps generalizing s with
  | nil => exact h
  | cons item rest ih =>
    unfold clearDel at h
    simp only [List.foldl_cons] at h
    by_cases hi : (item == "pore.all" || item == "throat.all") = true
    · rw [if_pos hi] at h
      exact ih s h
    · rw [if_neg hi] at h
      exact mem_skeys_delk s item k (ih (delk s item) h)

theorem step_preserves_keysOK (s : Store) (op : Op)
    (h : ∀ k ∈ skeys s, keyElemOK k = true) :
    ∀ k ∈ skeys (step s op), keyElemOK k = true := by
  cases op with
  | set key v =>
    simp only [step]
    cases hS : setitem s key v with
    | error e => exact h
    | ok t =>
      simp only [orElseStore]
      intro k hk
      obtain ⟨hkey, hshape⟩ := setitem_ok_shape s key v t hS
      rcases hshape with rfl | ⟨w, rfl⟩
      · exact h k hk
      · rcases mem_skeys_setRaw s key k w hk with rfl | hm
        · exact hkey
        · exact h k hm
  | clr e m =>
    simp only [step]
    cases hC : clear s e m with
    | error _ => exact h
    | ok t =>
      simp only [orElseStore]
      intro k hk
      obtain ⟨ps, hps⟩ := clear_ok_clearDel s e m t hC
      subst hps
      exact h k (mem_skeys_clearDel ps s k hk)

theorem run_preserves_keysOK (ops : List Op) :
    ∀ s : Store, (∀ k ∈ skeys s, keyElemOK k = true) →
      ∀ k ∈ skeys (run s ops), keyElemOK k = true := by
  induction ops with
  | nil => exact fun s h => h
  | cons op rest ih =>
    intro s h
    exact ih (step s op) (step_preserves_keysOK s op h)

theorem keys_init_OK (np nt : Nat) : ∀ k ∈ skeys (init np nt), keyElemOK k = true := by
  intro k hk
  have hks : skeys (init np nt) = ["pore.all", "throat.all"] := rfl
  rw [hks] at hk
  simp only [List.mem_cons, List.mem_singleton, List.not_mem_nil, or_false] at hk
  rcases hk with rfl | rfl
  · decide
  · decide

/-- The stored value for a write that went through the length-checked branch
of `__setitem__` has exactly the element-count length. -/
theorem setitem_checked_length (s : Store) (key : String) (v : Entry) (t : Store)
    (element second : String) (n : Nat)
    (hc : (headComp key == "constant") = false)
    (hE : parseElementSingle (headComp key) = .ok element)
    (hk1 : key ≠ "pore.coords") (hk2 : key ≠ "throat.conns")
    (hS : (pySplitDot key).get? 1 = some second) (hsec : second ≠ "all")
    (hN : count s element = .ok n) (hn : 0 < n)
    (h : setitem s key v = .ok t) :
    ∃ arr, getk t key = some arr ∧ entryLen arr = n := by
  unfold setitem at h
  rw [if_neg (by rw [hc]; exact Bool.false_ne_true)] at h
  rw [hE] at h
  dsimp only at h
  rw [if_neg (by simp [hk1, hk2])] at h
  rw [hS] at h
  dsimp only at h
  rw [if_neg (by simp [hsec])] at h
  rw [hN] at h
  dsimp only at h
  by_cases h6 : (entryLen v == 1) = true
  · rw [if_pos h6] at h
    cases h
    exact ⟨broadcastScalar n v, getk_setRaw_self s key _, entryLen_broadcastScalar n v⟩
  · rw [if_neg h6] at h
    by_cases h7 : (entryLen v == n) = true
    · rw [if_pos h7] at h
      cases h
      exact ⟨v, getk_setRaw_self s key v, by simpa using h7⟩
    · rw [if_neg h7] at h
      rw [if_neg (by simp [Nat.pos_iff_ne_zero.mp hn])] at h
      simp at h

theorem broadcastScalar_num (n : Nat) (v : Int) :
    broadcastScalar n (.numArr [v]) = .numArr (List.replicate n v) := by
  simp [broadcastScalar]

theorem broadcastScalar_bool (n : Nat) (b : Bool) :
    broadcastScalar n (.boolArr [b]) = .boolArr (List.replicate n b) := by
  simp [broadcastScalar]

/-- Reduction of `__setitem__` on the length-checked branch to its final
length test. -/
theorem setitem_checked_reduce (s : Store) (key : String) (v : Entry)
    (element second : String) (n : Nat)
    (hc : (headComp key == "constant") = false)
    (hE : parseElementSingle (headComp key) = .ok element)
    (hk1 : key ≠ "pore.coords") (hk2 : key ≠ "throat.conns")
    (hS : (pySplitDot key).get? 1 = some second) (hsec : second ≠ "all")
    (hN : count s element = .ok n) :
    setitem s key v =
      (if (entryLen v == 1) = true then Except.ok (setRaw s key (broadcastScalar n v))
       else if (entryLen v == n) = true then Except.ok (setRaw s key v)
       else if (n == 0) = true then Except.ok (setRaw s key v)
       else Except.error ("Cannot write an array, wrong length: " ++ key)) := by
  unfold setitem
  rw [if_neg (by rw [hc]; exact Bool.false_ne_true)]
  rw [hE]
  dsimp only
  rw [if_neg (by simp [hk1, hk2])]
  rw [hS]
  dsimp only
  rw [if_neg (by simp [hsec])]
  rw [hN]

/-- C2 (amended): after any sequence of operations on a freshly created
store, every stored key has a first dot-component that is `constant` or
normalizes to `pore`/`throat`; and every array written through the
length-checked branch of `__setitem__` while the element count `n` is
positive is stored with length exactly `n`.  (The unchecked branches,
`constant.*`, `pore.coords`/`throat.conns`, protected `all` keys and
grow-from-empty writes, are exempt; see the counterexample.) -/
theorem C2_key_discipline (np nt : Nat) (ops : List Op) :
    (∀ k ∈ skeys (run (init np nt) ops), keyElemOK k = true) ∧
    (∀ (s : Store) (key : String) (v : Entry) (t : Store) (element second : String)
      (n : Nat),
      (headComp key == "constant") = false →
      parseElementSingle (headComp key) = .ok element →
      key ≠ "pore.coords" → key ≠ "throat.conns" →
      (pySplitDot key).get? 1 = some second → second ≠ "all" →
      count s element = .ok n → 0 < n →
      setitem s key v = .ok t →
      ∃ arr, getk t key = some arr ∧ entryLen arr = n) :=
  ⟨run_preserves_keysOK ops (init np nt) (keys_init_OK np nt),
    fun s key v t element second n hc hE hk1 hk2 hS hsec hN hn h =>
      setitem_checked_length s key v t element second n hc hE hk1 hk2 hS hsec hN hn h⟩

/-- Witness for C2: evaluates the amended claim on a concrete store. -/
theorem C2_key_discipline_witness :
    keyElemOK "pore.all" = true ∧
    (∃ arr, getk (setRaw (init 2 2) "pore.x" (.numArr [7, 7])) "pore.x" = some arr ∧
      entryLen arr = 2) := by
  constructor
  · exact (C2_key_discipline 2 2 []).1 "pore.all" (by decide)
  · exact (C2_key_discipline 2 2 []).2 (init 2 2) "pore.x" (.numArr [7, 7])
      (setRaw (init 2 2) "pore.x" (.numArr [7, 7])) "pore" "x" 2
      rfl rfl (by decide) (by decide) rfl (by decide) rfl (by decide) rfl

/-- Counterexample to C2 as stated: a successful write stores the key
`constant.x`, which is namespaced by neither `pore.` nor `throat.`, and a
successful write leaves the `pore.`-namespaced key `pore.coords` holding a
length-3 array although the pore count is 2. -/
theorem C2_counterexample :
    setitem (init 2 2) "constant.x" (.numArr [1, 2, 3]) =
      .ok (setRaw (init 2 2) "constant.x" (.numArr [1, 2, 3])) ∧
    strStarts "constant.x" "pore." = false ∧
    strStarts "constant.x" "throat." = false ∧
    setitem (setRaw (init 2 2) "constant.x" (.numArr [1, 2, 3])) "pore.coords"
        (.numArr [1, 2, 3]) =
      .ok (setRaw (setRaw (init 2 2) "constant.x" (.numArr [1, 2, 3])) "pore.coords"
        (.numArr [1, 2, 3])) ∧
    getk (setRaw (setRaw (init 2 2) "constant.x" (.numArr [1, 2, 3])) "pore.coords"
        (.numArr [1, 2, 3])) "pore.coords" = some (.numArr [1, 2, 3]) ∧
    count (setRaw (setRaw (init 2 2) "constant.x" (.numArr [1, 2, 3])) "pore.coords"
        (.numArr [1, 2, 3])) "pore" = .ok 2 :=
  ⟨rfl, rfl, rfl, rfl, rfl, rfl⟩

/-- C3 (amended): a non-scalar array whose length differs from the element
count is rejected by the length-checked branch of `__setitem__` when the
count is positive, leaving the store unchanged, and is stored when the
count is zero (growing from empty).  The unchecked keys
(`pore.coords`/`throat.conns`, protected `all` keys, `constant.*`) bypass
this length check; see the counterexample. -/
theorem C3_wrong_length_raises (s : Store) (key : String) (v : Entry)
    (element second : String) (n : Nat)
    (hc : (headComp key == "constant") = false)
    (hE : parseElementSingle (headComp key) = .ok element)
    (hk1 : key ≠ "pore.coords") (hk2 : key ≠ "throat.conns")
    (hS : (pySplitDot key).get? 1 = some second) (hsec : second ≠ "all")
    (hN : count s element = .ok n)
    (hv : 1 < entryLen v) (hne : entryLen v ≠ n) :
    (0 < n →
      setitem s key v = .error ("Cannot write an array, wrong length: " ++ key) ∧
      step s (.set key v) = s) ∧
    (n = 0 → setitem s key v = .ok (setRaw s key v)) := by
  have hbase := setitem_checked_reduce s key v element second n hc hE hk1 hk2 hS hsec hN
  rw [if_neg (by simp; omega)] at hbase
  rw [if_neg (by simp [hne])] at hbase
  constructor
  · intro hn
    have herr : setitem s key v =
        .error ("Cannot write an array, wrong length: " ++ key) := by
      rw [hbase, if_neg (by simp [Nat.pos_iff_ne_zero.mp hn])]
    refine ⟨herr, ?_⟩
    simp only [step]
    rw [herr]
    simp only [orElseStore]
  · intro hn
    subst hn
    rw [hbase, if_pos (by decide)]

/-- Witness for C3: the amended claim evaluated on a concrete store. -/
theorem C3_wrong_length_raises_witness :
    setitem (init 2 2) "pore.x" (.numArr [1, 2, 3]) =
      .error ("Cannot write an array, wrong length: " ++ "pore.x") ∧
    step (init 2 2) (.set "pore.x" (.numArr [1, 2, 3])) = init 2 2 :=
  (C3_wrong_length_raises (init 2 2) "pore.x" (.numArr [1, 2, 3]) "pore" "x" 2
    rfl rfl (by decide) (by decide) rfl (by decide) rfl (by decide) (by decide)).1
    (by decide)

/-- Counterexample to C3 as stated: writing a length-3 array under
`pore.coords` on a store with pore count 2 succeeds instead of raising,
because that key skips the length check. -/
theorem C3_counterexample :
    setitem (init 2 2) "pore.coords" (.numArr [1, 2, 3]) =
      .ok (setRaw (init 2 2) "pore.coords" (.numArr [1, 2, 3])) ∧
    count (init 2 2) "pore" = .ok 2 ∧
    entryLen (.numArr [1, 2, 3]) = 3 :=
  ⟨rfl, rfl, rfl⟩

/-- C4 (amended): a scalar (numeric or boolean) assigned through the
length-checked branch of `__setitem__` under a non-protected key is
broadcast to a full-length vector, so a subsequent get returns an array of
length exactly the element count with every entry equal to the scalar.
The unchecked keys `pore.coords`/`throat.conns` skip the broadcast; see
the counterexample. -/
theorem C4_scalar_broadcast (s : Store) (key : String) (element second : String)
    (n : Nat) (v : Int) (b : Bool)
    (hc : (headComp key == "constant") = false)
    (hE : parseElementSingle (headComp key) = .ok element)
    (hk1 : key ≠ "pore.coords") (hk2 : key ≠ "throat.conns")
    (hS : (pySplitDot key).get? 1 = some second) (hsec : second ≠ "all")
    (hN : count s element = .ok n) :
    (setitem s key (.numArr [v]) = .ok (setRaw s key (.numArr (List.replicate n v))) ∧
      getk (setRaw s key (.numArr (List.replicate n v))) key =
        some (.numArr (List.replicate n v))) ∧
    (setitem s key (.boolArr [b]) = .ok (setRaw s key (.boolArr (List.replicate n b))) ∧
      getk (setRaw s key (.boolArr (List.replicate n b))) key =
        some (.boolArr (List.replicate n b))) := by
  constructor
  · constructor
    · rw [setitem_checked_reduce s key (.numArr [v]) element second n hc hE hk1 hk2
        hS hsec hN]
      rw [if_pos (by rfl), broadcastScalar_num]
    · exact getk_setRaw_self s key _
  · constructor
    · rw [setitem_checked_reduce s key (.boolArr [b]) element second n hc hE hk1 hk2
        hS hsec hN]
      rw [if_pos (by rfl), broadcastScalar_bool]
    · exact getk_setRaw_self s key _

/-- Witness for C4: the amended claim evaluated on a concrete store. -/
theorem C4_scalar_broadcast_witness :
    (setitem (init 3 2) "pore.x" (.numArr [7]) =
        .ok (setRaw (init 3 2) "pore.x" (.numArr (List.replicate 3 7))) ∧
      getk (setRaw (init 3 2) "pore.x" (.numArr (List.replicate 3 7))) "pore.x" =
        some (.numArr (List.replicate 3 7))) ∧
    (setitem (init 3 2) "pore.x" (.boolArr [true]) =
        .ok (setRaw (init 3 2) "pore.x" (.boolArr (List.replicate 3 true))) ∧
      getk (setRaw (init 3 2) "pore.x" (.boolArr (List.replicate 3 true))) "pore.x" =
        some (.boolArr (List.replicate 3 true))) :=
  C4_scalar_broadcast (init 3 2) "pore.x" "pore" "x" 3 7 true
    rfl rfl (by decide) (by decide) rfl (by decide) rfl

/-- Counterexample to C4 as stated: a scalar written under the valid
non-protected key `pore.coords` is stored as a length-1 array, not
broadcast to the pore count 2. -/
theorem C4_counterexample :
    setitem (init 2 2) "pore.coords" (.numArr [5]) =
      .ok (setRaw (init 2 2) "pore.coords" (.numArr [5])) ∧
    getk (setRaw (init 2 2) "pore.coords" (.numArr [5])) "pore.coords" =
      some (.numArr [5]) ∧
    count (init 2 2) "pore" = .ok 2 ∧
    entryLen (.numArr [5]) = 1 :=
  ⟨rfl, rfl, rfl, rfl⟩

/-- C5: for a store created with `Np > 0` pores and `Nt > 0` throats, the
labels `pore.all` and `throat.all` exist from creation with lengths `Np`
and `Nt` and keep exactly their creation-time values after any sequence of
set and clear operations; a later write to either already-defined
non-empty `all` key is accepted but leaves the store unchanged, and
`clear` never deletes these keys. -/
theorem C5_all_labels_persist (np nt : Nat) (hnp : 0 < np) (hnt : 0 < nt)
    (ops : List Op) :
    getk (run (init np nt) ops) "pore.all" =
      some (.boolArr (List.replicate np true)) ∧
    getk (run (init np nt) ops) "throat.all" =
      some (.boolArr (List.replicate nt true)) ∧
    (∀ v, setitem (run (init np nt) ops) "pore.all" v =
      Except.ok (run (init np nt) ops)) ∧
    (∀ v, setitem (run (init np nt) ops) "throat.all" v =
      Except.ok (run (init np nt) ops)) := by
  have hinv := run_preserves_allInv np nt hnp hnt ops (init np nt) ⟨rfl, rfl⟩
  exact ⟨hinv.1, hinv.2,
    fun v => setitem_special_noop_pore _ np hnp v hinv.1,
    fun v => setitem_special_noop_throat _ nt hnt v hinv.2⟩

/-- Witness for C5 on a concrete store and operation sequence containing a
label write, an attempted overwrite of `pore.all`, and a full clear. -/
theorem C5_all_labels_persist_witness :
    getk
      (run (init 2 3)
        [Op.set "pore.x" (.numArr [5]), Op.set "pore.all" (.boolArr [false]),
          Op.clr none ["all"]]) "pore.all" =
      some (.boolArr (List.replicate 2 true)) ∧
    setitem
      (run (init 2 3)
        [Op.set "pore.x" (.numArr [5]), Op.set "pore.all" (.boolArr [false]),
          Op.clr none ["all"]]) "pore.all" (.numArr [9]) =
      Except.ok
        (run (init 2 3)
          [Op.set "pore.x" (.numArr [5]), Op.set "pore.all" (.boolArr [false]),
            Op.clr none ["all"]]) := by
  constructor
  · exact (C5_all_labels_persist 2 3 (by decide) (by decide)
      [Op.set "pore.x" (.numArr [5]), Op.set "pore.all" (.boolArr [false]),
        Op.clr none ["all"]]).1
  · exact (C5_all_labels_persist 2 3 (by decide) (by decide)
      [Op.set "pore.x" (.numArr [5]), Op.set "pore.all" (.boolArr [false]),
        Op.clr none ["all"]]).2.2.1 (.numArr [9])

/-! The label query layer: `Base.labels` (no-locations branch),
`Base._parse_labels`, `Base._get_indices`, `Base.pores`, `Base.throats`. -/

/-- The label keys of one element kind: keys whose first dot-component is
the element and whose array is boolean (`Base.labels()` with no locations).
Python iterates a set intersection, whose iteration order does not affect
any query proved below; the model lists them in store order. -/
def labelKeys (s : Store) (element : String) : List String :=
  (skeys s).filter
    (fun k => headComp k == element && isBoolE ((getk s k).getD (.numArr [])))

/-- `label.strip("*")`. -/
def stripStar (label : String) : String := pyStrip (Char.ofNat 42) label

/-- The bare label names of one element kind,
`[L.split(".")[-1] for L in self.labels(element=element)]`. -/
def labelNames (s : Store) (element : String) : List String :=
  (labelKeys s element).map (fun L => lastComp L)

/-- The wildcard branch of `_parse_labels` for one label: collects matching
bare label names.  Python binds `temp` only under `label.startswith("*")` or
`label.endswith("*")`, so a `*` strictly inside the label leaves `temp`
unbound and raises a `NameError`; note the endswith test overwrites the
startswith result. -/
def wildcardMatches (s : Store) (element : String) (label : String) :
    Except String (List String) :=
  if strStarts label "*" then
    if strEnds label "*" then
      Except.ok ((labelNames s element).filter (fun L => strStarts L (stripStar label)))
    else
      Except.ok ((labelNames s element).filter (fun L => strEnds L (stripStar label)))
  else if strEnds label "*" then
    Except.ok ((labelNames s element).filter (fun L => strStarts L (stripStar label)))
  else
    Except.error "NameError: name temp is not defined"

/-- The body of the `_parse_labels` loop after the element prefix has been
stripped from the label. -/
def parseOneLabelCore (s : Store) (element : String) (label : String) :
    Except String (List String) :=
  if charIn (Char.ofNat 42) label then
    match wildcardMatches s element label with
    | .error e => .error e
    | .ok temp => Except.ok (temp.map (fun L => element ++ "." ++ L))
  else if (skeys s).contains (element ++ "." ++ label) then
    Except.ok [element ++ "." ++ label]
  else
    Except.ok [element ++ "." ++ label]

/-- One iteration of the `_parse_labels` loop: the list of fully-qualified
labels contributed by one input label.  An unmatched plain label is logged
and passed through unchanged (both final branches of the core agree). -/
def parseOneLabel (s : Store) (element : String) (label : String) :
    Except String (List String) :=
  parseOneLabelCore s element (if strSub element label then lastComp label else label)

/-- The `_parse_labels` loop with its in-loop duplicate removal. -/
def parseLabelsGo (s : Store) (element : String) :
    List String → List String → Except String (List String)
  | [], acc => Except.ok acc
  | label :: rest, acc =>
    match parseOneLabel s element label with
    | .error e => .error e
    | .ok temp => parseLabelsGo s element rest (pyDedup (acc ++ temp))

/-- `Base._parse_labels(labels, element)`. -/
def parseLabels (s : Store) (labels : List String) (element : String) :
    Except String (List String) :=
  parseLabelsGo s element labels []

/-- Bools as numpy integers. -/
def boolToInt (b : Bool) : Int := if b then 1 else 0

/-- `sp.int8(x)`: wrap into the signed byte range. -/
def int8Wrap (v : Int) : Int := ((v + 128) % 256) - 128

/-- `sp.int8(info)` on a stored array (a boolean label gives 0/1). -/
def int8Cast : Entry → Entry
  | .boolArr bs => .numArr (bs.map boolToInt)
  | .numArr xs => .numArr (xs.map int8Wrap)

/-- Numpy elementwise combination of numeric arrays with length-1
broadcasting; other length mismatches raise a `ValueError`. -/
def npZip (f : Int → Int → Int) (a b : List Int) : Except String (List Int) :=
  if a.length = b.length then Except.ok (List.zipWith f a b)
  else if a.length = 1 then Except.ok (b.map (f (a.headD 0)))
  else if b.length = 1 then Except.ok (a.map (fun x => f x (b.headD 0)))
  else Except.error "ValueError: operands could not be broadcast together"

/-- Numpy elementwise combination of boolean arrays. -/
def npZipB (f : Bool → Bool → Bool) (a b : List Bool) : Except String (List Bool) :=
  if a.length = b.length then Except.ok (List.zipWith f a b)
  else if a.length = 1 then Except.ok (b.map (f (a.headD false)))
  else if b.length = 1 then Except.ok (a.map (fun x => f x (b.headD false)))
  else Except.error "ValueError: operands could not be broadcast together"

/-- Contents of a stored array as numpy numeric values. -/
def entryInts : Entry → List Int
  | .boolArr bs => bs.map boolToInt
  | .numArr xs => xs

/-- Numpy `+` on stored arrays: boolean + boolean is logical or; any
numeric operand upcasts to numeric addition. -/
def npAdd (a b : Entry) : Except String Entry :=
  match a, b with
  | .boolArr x, .boolArr y =>
    match npZipB (fun p q => p || q) x y with
    | .error e => .error e
    | .ok r => Except.ok (.boolArr r)
  | _, _ =>
    match npZip (fun p q => p + q) (entryInts a) (entryInts b) with
    | .error e => .error e
    | .ok r => Except.ok (.numArr r)

/-- Numpy `*` on stored arrays: boolean * boolean is logical and. -/
def npMul (a b : Entry) : Except String Entry :=
  match a, b with
  | .boolArr x, .boolArr y =>
    match npZipB (fun p q => p && q) x y with
    | .error e => .error e
    | .ok r => Except.ok (.boolArr r)
  | _, _ =>
    match npZip (fun p q => p * q) (entryInts a) (entryInts b) with
    | .error e => .error e
    | .ok r => Except.ok (.numArr r)

/-- Numpy `-` on stored arrays (not defined on two boolean arrays). -/
def npSub (a b : Entry) : Except String Entry :=
  match a, b with
  | .boolArr _, .boolArr _ =>
    Except.error "TypeError: numpy boolean subtract is not supported"
  | _, _ =>
    match npZip (fun p q => p - q) (entryInts a) (entryInts b) with
    | .error e => .error e
    | .ok r => Except.ok (.numArr r)

/-- `arr == 1` elementwise. -/
def eqOneMask : Entry → List Bool
  | .boolArr bs => bs.map (fun b => boolToInt b == 1)
  | .numArr xs => xs.map (fun x => x == 1)

/-- `arr == 0` elementwise. -/
def eqZeroMask : Entry → List Bool
  | .boolArr bs => bs.map (fun b => boolToInt b == 0)
  | .numArr xs => xs.map (fun x => x == 0)

/-- `sp.where(mask)[0]` on a boolean mask: the indices holding `True`, in
increasing order. -/
def whereIdx (m : List Bool) : List Nat :=
  (List.range m.length).filter (fun i => m.getD i false)

/-- `sp.where(arr)[0]` on a stored array (numeric arrays select nonzero). -/
def whereEntry : Entry → List Nat
  | .boolArr bs => whereIdx bs
  | .numArr xs => whereIdx (xs.map (fun x => !(x == 0)))

/-- The length of the `element.all` array, i.e. the element count used by
the mask computations of `_get_indices` (`zeros_like`/`ones_like` of
`self[element + ".all"]`). -/
def allLen (s : Store) (element : String) : Nat :=
  entryLen ((getk s (element ++ ".all")).getD (.boolArr []))

/-- The per-label accumulation loops of `_get_indices`: look up each parsed
label under `element + "." + item.split(".")[-1]` and combine with `f`. -/
def foldMasks (s : Store) (element : String)
    (f : Entry → Entry → Except String Entry) :
    Entry → List String → Except String Entry
  | acc, [] => Except.ok acc
  | acc, item :: rest =>
    match getk s (element ++ "." ++ lastComp item) with
    | none => .error ("KeyError: " ++ element ++ "." ++ lastComp item)
    | some info =>
      match f acc info with
      | .error e => .error e
      | .ok acc2 => foldMasks s element f acc2 rest

/-- `Base._get_indices(element, labels, mode)`. -/
def getIndices (s : Store) (element : String) (labels : List String)
    (mode : String) : Except String (List Nat) :=
  match parseModeSingle
      ["union", "intersection", "not_intersection", "not", "difference"] mode with
  | .error e => .error e
  | .ok mode =>
    match parseElementSingle element with
    | .error e => .error e
    | .ok element =>
      match parseLabels s labels element with
      | .error e => .error e
      | .ok labels =>
        if !((skeys s).contains (element ++ ".all")) then
          .error ("Cannot proceed without " ++ element ++ ".all")
        else
          if mode == "union" then
            match foldMasks s element npAdd
                (.boolArr (List.replicate (allLen s element) false)) labels with
            | .error e => .error e
            | .ok m => Except.ok (whereEntry m)
          else if mode == "intersection" then
            match foldMasks s element npMul
                (.boolArr (List.replicate (allLen s element) true)) labels with
            | .error e => .error e
            | .ok m => Except.ok (whereEntry m)
          else if mode == "not_intersection" then
            match foldMasks s element (fun a i => npAdd a (int8Cast i))
                (.numArr (List.replicate (allLen s element) 0)) labels with
            | .error e => .error e
            | .ok m => Except.ok (whereIdx (eqOneMask m))
          else
            match foldMasks s element (fun a i => npSub a (int8Cast i))
                (.numArr (List.replicate (allLen s element) 0)) labels with
            | .error e => .error e
            | .ok m => Except.ok (whereIdx (eqZeroMask m))

/-- `Base.pores(labels, mode)`. -/
def pores (s : Store) (labels : List String) (mode : String) :
    Except String (List Nat) :=
  getIndices s "pore" labels mode

/-- `Base.throats(labels, mode)`. -/
def throats (s : Store) (labels : List String) (mode : String) :
    Except String (List Nat) :=
  getIndices s "throat" labels mode

/-! String-splitting lemmas used to reason about abstract keys. -/

theorem strMk_data (s : String) : String.mk s.data = s := by
  cases s
  rfl

theorem splitOnChar_no_sep (c : Char) (cs : List Char) (h : cs.contains c = false) :
    splitOnChar c cs = [cs] := by
  induction cs with
  | nil => rfl
  | cons x rest ih =>
    have hm : c ∉ (x :: rest) := by simpa using h
    have hxc : (x == c) = false := by
      simp only [List.mem_cons, not_or] at hm
      simp [Ne.symm hm.1]
    have ih2 := ih (by
      simp only [List.mem_cons, not_or] at hm
      simpa using hm.2)
    simp [splitOnChar, hxc, ih2]

theorem splitOnChar_sep_append (c : Char) (a b : List Char)
    (h : a.contains c = false) :
    splitOnChar c (a ++ c :: b) = a :: splitOnChar c b := by
  induction a with
  | nil => simp [splitOnChar]
  | cons x rest ih =>
    have hm : c ∉ (x :: rest) := by simpa using h
    have hxc : (x == c) = false := by
      simp only [List.mem_cons, not_or] at hm
      simp [Ne.symm hm.1]
    have ih2 := ih (by
      simp only [List.mem_cons, not_or] at hm
      simpa using hm.2)
    simp [splitOnChar, List.append_eq, hxc, ih2]

theorem pySplitDot_no_dot (L : String) (h : charIn (Char.ofNat 46) L = false) :
    pySplitDot L = [L] := by
  unfold pySplitDot
  rw [splitOnChar_no_sep _ _ h]
  simp [strMk_data]

theorem lastComp_no_dot (L : String) (h : charIn (Char.ofNat 46) L = false) :
    lastComp L = L := by
  unfold lastComp
  rw [pySplitDot_no_dot L h]
  rfl

theorem pySplitDot_concat (element L : String)
    (hel : charIn (Char.ofNat 46) element = false)
    (hL : charIn (Char.ofNat 46) L = false) :
    pySplitDot (element ++ "." ++ L) = [element, L] := by
  unfold pySplitDot
  have hdata : (element ++ "." ++ L).data =
      element.data ++ (Char.ofNat 46) :: L.data := by
    rw [String.data_append, String.data_append]
    rw [List.append_assoc]
    rfl
  rw [hdata, splitOnChar_sep_append _ _ _ hel, splitOnChar_no_sep _ _ hL]
  simp [strMk_data]

theorem lastComp_concat (element L : String)
    (hel : charIn (Char.ofNat 46) element = false)
    (hL : charIn (Char.ofNat 46) L = false) :
    lastComp (element ++ "." ++ L) = L := by
  unfold lastComp
  rw [pySplitDot_concat element L hel hL]
  rfl

/-! Reduction lemmas for the label parsers. -/

theorem parseModeSingle_mem (allowed : List String) (mode : String)
    (h : allowed.contains mode = true) :
    parseModeSingle allowed mode = .ok mode := by
  unfold parseModeSingle parseModeList
  rw [if_pos (by simpa using h), pyDedup_singleton]

theorem parseOneLabel_plain (s : Store) (element L : String)
    (h1 : charIn (Char.ofNat 42) L = false)
    (h2 : charIn (Char.ofNat 46) L = false) :
    parseOneLabel s element L = .ok [element ++ "." ++ L] := by
  unfold parseOneLabel
  have hL : (if strSub element L then lastComp L else L) = L := by
    split
    · exact lastComp_no_dot L h2
    · rfl
  rw [hL]
  unfold parseOneLabelCore
  rw [if_neg (by rw [h1]; exact Bool.false_ne_true)]
  split
  · rfl
  · rfl

theorem parseLabelsGo_plain (s : Store) (element : String) (Q : String → Prop)
    (hQ : ∀ L, Q L → charIn (Char.ofNat 42) L = false ∧
      charIn (Char.ofNat 46) L = false) :
    ∀ (rest acc : List String),
      (∀ L ∈ rest, Q L) →
      (∀ it ∈ acc, ∃ L, Q L ∧ it = element ++ "." ++ L) →
      ∃ out, parseLabelsGo s element rest acc = .ok out ∧
        ∀ it ∈ out, ∃ L, Q L ∧ it = element ++ "." ++ L := by
  intro rest
  induction rest with
  | nil =>
    intro acc _ hacc
    exact ⟨acc, rfl, hacc⟩
  | cons L rest ih =>
    intro acc hrest hacc
    obtain ⟨h1, h2⟩ := hQ L (hrest L (List.mem_cons_self _ _))
    unfold parseLabelsGo
    rw [parseOneLabel_plain s element L h1 h2]
    dsimp only
    apply ih
    · exact fun L2 hL2 => hrest L2 (List.mem_cons_of_mem _ hL2)
    · intro it hit
      rcases List.mem_append.mp (pyDedup_subset _ _ hit) with hmem | hmem
      · exact hacc it hmem
      · simp only [List.mem_singleton] at hmem
        exact ⟨L, hrest L (List.mem_cons_self _ _), hmem⟩

theorem parseLabels_plain (s : Store) (element : String) (Q : String → Prop)
    (hQ : ∀ L, Q L → charIn (Char.ofNat 42) L = false ∧
      charIn (Char.ofNat 46) L = false)
    (labels : List String) (hlab : ∀ L ∈ labels, Q L) :
    ∃ out, parseLabels s labels element = .ok out ∧
      ∀ it ∈ out, ∃ L, Q L ∧ it = element ++ "." ++ L := by
  exact parseLabelsGo_plain s element Q hQ labels [] hlab (by simp)

/-! Length and sortedness lemmas for the mask computations. -/

theorem npZip_eq_len (f : Int → Int → Int) (a b : List Int)
    (h : a.length = b.length) : npZip f a b = .ok (List.zipWith f a b) := by
  unfold npZip
  rw [if_pos h]

theorem npZipB_eq_len (f : Bool → Bool → Bool) (a b : List Bool)
    (h : a.length = b.length) : npZipB f a b = .ok (List.zipWith f a b) := by
  unfold npZipB
  rw [if_pos h]

theorem foldMasks_inv (s : Store) (element : String)
    (f : Entry → Entry → Except String Entry) (P : Entry → Prop) (N : Nat)
    (hf : ∀ (a : Entry) (mm : List Bool), P a → mm.length = N →
      ∃ r, f a (.boolArr mm) = .ok r ∧ P r) :
    ∀ (items : List String) (acc : Entry), P acc →
      (∀ it ∈ items, ∃ mm : List Bool,
        getk s (element ++ "." ++ lastComp it) = some (.boolArr mm) ∧
        mm.length = N) →
      ∃ r, foldMasks s element f acc items = .ok r ∧ P r := by
  intro items
  induction items with
  | nil =>
    intro acc hacc _
    exact ⟨acc, rfl, hacc⟩
  | cons it rest ih =>
    intro acc hacc hits
    obtain ⟨mm, hget, hlen⟩ := hits it (List.mem_cons_self _ _)
    obtain ⟨r1, hf1, hP1⟩ := hf acc mm hacc hlen
    unfold foldMasks
    rw [hget]
    dsimp only
    rw [hf1]
    dsimp only
    exact ih r1 hP1 (fun it2 h2 => hits it2 (List.mem_cons_of_mem _ h2))

theorem whereIdx_pairwise (m : List Bool) : List.Pairwise (· < ·) (whereIdx m) :=
  (List.sorted_lt_range m.length).sublist (List.filter_sublist _)

theorem whereIdx_lt (m : List Bool) : ∀ i ∈ whereIdx m, i < m.length := by
  intro i hi
  exact List.mem_range.mp (List.mem_filter.mp hi).1

theorem whereEntry_pairwise (e : Entry) : List.Pairwise (· < ·) (whereEntry e) := by
  cases e <;> exact whereIdx_pairwise _

theorem whereEntry_lt (e : Entry) : ∀ i ∈ whereEntry e, i < entryLen e := by
  cases e with
  | boolArr bs => exact whereIdx_lt bs
  | numArr xs =>
    intro i hi
    have := whereIdx_lt _ i hi
    simpa [entryLen] using this

/-- C10: for every element kind with count `N`, every list of existing
plain labels (boolean masks of length `N`), and every accepted mode,
`_get_indices` succeeds and returns a strictly increasing (hence
duplicate-free) list of indices, each below `N`. -/
theorem C10_canonical_indices (s : Store) (element mode : String)
    (labels : List String) (allE : Entry) (N : Nat)
    (he : element = "pore" ∨ element = "throat")
    (hm : mode = "union" ∨ mode = "intersection" ∨ mode = "not_intersection" ∨
      mode = "not" ∨ mode = "difference")
    (hall : getk s (element ++ ".all") = some allE)
    (hN : entryLen allE = N)
    (hlab : ∀ L ∈ labels, charIn (Char.ofNat 42) L = false ∧
      charIn (Char.ofNat 46) L = false ∧
      ∃ mm : List Bool, getk s (element ++ "." ++ L) = some (.boolArr mm) ∧
        mm.length = N) :
    ∃ ind, getIndices s element labels mode = .ok ind ∧
      List.Pairwise (· < ·) ind ∧ ∀ i ∈ ind, i < N := by
  have helDot : charIn (Char.ofNat 46) element = false := by
    rcases he with rfl | rfl <;> decide
  have hel : parseElementSingle element = .ok element := by
    rcases he with rfl | rfl <;> rfl
  have hmode : parseModeSingle
      ["union", "intersection", "not_intersection", "not", "difference"] mode =
      .ok mode := by
    apply parseModeSingle_mem
    rcases hm with rfl | rfl | rfl | rfl | rfl <;> decide
  obtain ⟨out, hout, hmem⟩ := parseLabels_plain s element
    (fun L => charIn (Char.ofNat 42) L = false ∧
      charIn (Char.ofNat 46) L = false ∧
      ∃ mm : List Bool, getk s (element ++ "." ++ L) = some (.boolArr mm) ∧
        mm.length = N)
    (fun L hQL => ⟨hQL.1, hQL.2.1⟩) labels hlab
  have hcon : (skeys s).contains (element ++ ".all") = true :=
    contains_skeys_of_getk _ _ _ hall
  have hAllLen : allLen s element = N := by
    unfold allLen
    rw [hall]
    exact hN
  have hitems : ∀ it ∈ out, ∃ mm : List Bool,
      getk s (element ++ "." ++ lastComp it) = some (.boolArr mm) ∧
      mm.length = N := by
    intro it hit
    obtain ⟨L, hQL, rfl⟩ := hmem it hit
    rw [lastComp_concat element L helDot hQL.2.1]
    exact hQL.2.2
  unfold getIndices
  rw [hmode]
  dsimp only
  rw [hel]
  dsimp only
  rw [hout]
  dsimp only
  rw [hcon]
  rw [if_neg (by simp)]
  rcases hm with rfl | rfl | rfl | rfl | rfl
  · -- union
    have hcu : (("union" : String) == "union") = true := by decide
    rw [if_pos hcu]
    obtain ⟨r, hr, hP⟩ := foldMasks_inv s element npAdd
      (fun e => ∃ xs : List Bool, e = .boolArr xs ∧ xs.length = N) N
      (by
        intro a mm ha hmm
        obtain ⟨xs, rfl, hxs⟩ := ha
        refine ⟨.boolArr (List.zipWith (fun p q => p || q) xs mm), ?_, ?_⟩
        · unfold npAdd
          dsimp only
          rw [npZipB_eq_len _ _ _ (by rw [hxs, hmm])]
        · exact ⟨_, rfl, by rw [List.length_zipWith, hxs, hmm, Nat.min_self]⟩)
      out (.boolArr (List.replicate (allLen s element) false))
      ⟨_, rfl, by rw [List.length_replicate, hAllLen]⟩ hitems
    rw [hr]
    dsimp only
    obtain ⟨xs, rfl, hxs⟩ := hP
    refine ⟨_, rfl, whereEntry_pairwise _, ?_⟩
    intro i hi
    have hb := whereEntry_lt _ i hi
    simpa [entryLen, hxs] using hb
  · -- intersection
    have hc1 : ¬ ((("intersection" : String) == "union") = true) := by decide
    have hc2 : (("intersection" : String) == "intersection") = true := by decide
    rw [if_neg hc1, if_pos hc2]
    obtain ⟨r, hr, hP⟩ := foldMasks_inv s element npMul
      (fun e => ∃ xs : List Bool, e = .boolArr xs ∧ xs.length = N) N
      (by
        intro a mm ha hmm
        obtain ⟨xs, rfl, hxs⟩ := ha
        refine ⟨.boolArr (List.zipWith (fun p q => p && q) xs mm), ?_, ?_⟩
        · unfold npMul
          dsimp only
          rw [npZipB_eq_len _ _ _ (by rw [hxs, hmm])]
        · exact ⟨_, rfl, by rw [List.length_zipWith, hxs, hmm, Nat.min_self]⟩)
      out (.boolArr (List.replicate (allLen s element) true))
      ⟨_, rfl, by rw [List.length_replicate, hAllLen]⟩ hitems
    rw [hr]
    dsimp only
    obtain ⟨xs, rfl, hxs⟩ := hP
    refine ⟨_, rfl, whereEntry_pairwise _, ?_⟩
    intro i hi
    have hb := whereEntry_lt _ i hi
    simpa [entryLen, hxs] using hb
  · -- not_intersection
    have hc1 : ¬ ((("not_intersection" : String) == "union") = true) := by decide
    have hc2 : ¬ ((("not_intersection" : String) == "intersection") = true) := by decide
    have hc3 : (("not_intersection" : String) == "not_intersection") = true := by decide
    rw [if_neg hc1, if_neg hc2, if_pos hc3]
    obtain ⟨r, hr, hP⟩ := foldMasks_inv s element (fun a i => npAdd a (int8Cast i))
      (fun e => ∃ xs : List Int, e = .numArr xs ∧ xs.length = N) N
      (by
        intro a mm ha hmm
        obtain ⟨xs, rfl, hxs⟩ := ha
        refine ⟨.numArr (List.zipWith (fun p q => p + q) xs (mm.map boolToInt)),
          ?_, ?_⟩
        · unfold int8Cast npAdd
          dsimp only [entryInts]
          rw [npZip_eq_len _ _ _ (by simp [hxs, hmm])]
        · exact ⟨_, rfl, by simp [List.length_zipWith, hxs, hmm]⟩)
      out (.numArr (List.replicate (allLen s element) 0))
      ⟨_, rfl, by rw [List.length_replicate, hAllLen]⟩ hitems
    rw [hr]
    dsimp only
    obtain ⟨xs, rfl, hxs⟩ := hP
    refine ⟨_, rfl, whereIdx_pairwise _, ?_⟩
    intro i hi
    have hb := whereIdx_lt _ i hi
    simpa [eqOneMask, hxs] using hb
  · -- not
    have hc1 : ¬ ((("not" : String) == "union") = true) := by decide
    have hc2 : ¬ ((("not" : String) == "intersection") = true) := by decide
    have hc3 : ¬ ((("not" : String) == "not_intersection") = true) := by decide
    rw [if_neg hc1, if_neg hc2, if_neg hc3]
    obtain ⟨r, hr, hP⟩ := foldMasks_inv s element (fun a i => npSub a (int8Cast i))
      (fun e => ∃ xs : List Int, e = .numArr xs ∧ xs.length = N) N
      (by
        intro a mm ha hmm
        obtain ⟨xs, rfl, hxs⟩ := ha
        refine ⟨.numArr (List.zipWith (fun p q => p - q) xs (mm.map boolToInt)),
          ?_, ?_⟩
        · unfold int8Cast npSub
          dsimp only [entryInts]
          rw [npZip_eq_len _ _ _ (by simp [hxs, hmm])]
        · exact ⟨_, rfl, by simp [List.length_zipWith, hxs, hmm]⟩)
      out (.numArr (List.replicate (allLen s element) 0))
      ⟨_, rfl, by rw [List.length_replicate, hAllLen]⟩ hitems
    rw [hr]
    dsimp only
    obtain ⟨xs, rfl, hxs⟩ := hP
    refine ⟨_, rfl, whereIdx_pairwise _, ?_⟩
    intro i hi
    have hb := whereIdx_lt _ i hi
    simpa [eqZeroMask, hxs] using hb
  · -- difference
    have hc1 : ¬ ((("difference" : String) == "union") = true) := by decide
    have hc2 : ¬ ((("difference" : String) == "intersection") = true) := by decide
    have hc3 : ¬ ((("difference" : String) == "not_intersection") = true) := by decide
    rw [if_neg hc1, if_neg hc2, if_neg hc3]
    obtain ⟨r, hr, hP⟩ := foldMasks_inv s element (fun a i => npSub a (int8Cast i))
      (fun e => ∃ xs : List Int, e = .numArr xs ∧ xs.length = N) N
      (by
        intro a mm ha hmm
        obtain ⟨xs, rfl, hxs⟩ := ha
        refine ⟨.numArr (List.zipWith (fun p q => p - q) xs (mm.map boolToInt)),
          ?_, ?_⟩
        · unfold int8Cast npSub
          dsimp only [entryInts]
          rw [npZip_eq_len _ _ _ (by simp [hxs, hmm])]
        · exact ⟨_, rfl, by simp [List.length_zipWith, hxs, hmm]⟩)
      out (.numArr (List.replicate (allLen s element) 0))
      ⟨_, rfl, by rw [List.length_replicate, hAllLen]⟩ hitems
    rw [hr]
    dsimp only
    obtain ⟨xs, rfl, hxs⟩ := hP
    refine ⟨_, rfl, whereIdx_pairwise _, ?_⟩
    intro i hi
    have hb := whereIdx_lt _ i hi
    simpa [eqZeroMask, hxs] using hb

/-! Wildcard-pattern lemmas for claim C6. -/

theorem dropWhile_beq_of_not_contains (c : Char) (cs : List Char)
    (h : cs.contains c = false) : cs.dropWhile (fun y => y == c) = cs := by
  cases cs with
  | nil => rfl
  | cons x rest =>
    have hm : c ∉ (x :: rest) := by simpa using h
    simp only [List.mem_cons, not_or] at hm
    simp [List.dropWhile_cons, Ne.symm hm.1]

theorem charIn_append_star (x : String) :
    charIn (Char.ofNat 42) (x ++ "*") = true := by
  unfold charIn
  rw [String.data_append]
  have hm : Char.ofNat 42 ∈ x.data ++ ("*" : String).data :=
    List.mem_append.mpr (Or.inr (List.mem_singleton.mpr rfl))
  simpa using hm

theorem charIn_star_append (x : String) :
    charIn (Char.ofNat 42) ("*" ++ x) = true := by
  unfold charIn
  rw [String.data_append]
  have hm : Char.ofNat 42 ∈ ("*" : String).data ++ x.data :=
    List.mem_append.mpr (Or.inl (List.mem_singleton.mpr rfl))
  simpa using hm

theorem charIn_concat_false (c : Char) (a b : String) (hc : charIn c a = false)
    (hb : charIn c b = false) : charIn c (a ++ b) = false := by
  unfold charIn at *
  rw [String.data_append]
  have ha2 : c ∉ a.data := by simpa using hc
  have hb2 : c ∉ b.data := by simpa using hb

  simpa using ⟨ha2, hb2⟩

theorem stripStar_leading (x : String) (hx : charIn (Char.ofNat 42) x = false) :
    stripStar ("*" ++ x) = x := by
  unfold stripStar pyStrip
  have hdata : ("*" ++ x).data = (Char.ofNat 42) :: x.data := by
    rw [String.data_append]
    rfl
  have hrev : x.data.reverse.contains (Char.ofNat 42) = false := by
    simpa [charIn] using hx
  rw [hdata, List.dropWhile_cons]
  simp only [beq_self_eq_true, if_true]
  rw [dropWhile_beq_of_not_contains (Char.ofNat 42) x.data
    (by simpa [charIn] using hx)]
  rw [dropWhile_beq_of_not_contains (Char.ofNat 42) x.data.reverse hrev,
    List.reverse_reverse]

theorem stripStar_suffix (x : String) (hx : charIn (Char.ofNat 42) x = false) :
    stripStar (x ++ "*") = x := by
  by_cases hx0 : x = ""
  · rw [hx0]
    decide
  · have hdx : x.data ≠ [] := by
      intro hnil
      apply hx0
      rw [← strMk_data x, hnil]
    unfold stripStar pyStrip
    have hdata : (x ++ "*").data = x.data ++ [Char.ofNat 42] := by
      rw [String.data_append]
    have hxm : Char.ofNat 42 ∉ x.data := by simpa [charIn] using hx
    have hdw : x.data.dropWhile (fun y => y == Char.ofNat 42) = x.data :=
      dropWhile_beq_of_not_contains _ _ (by simpa [charIn] using hx)
    have hrev : x.data.reverse.contains (Char.ofNat 42) = false := by
      simpa [charIn] using hx
    rw [hdata, List.dropWhile_append, hdw]
    rw [if_neg (by
      intro hemp
      exact hdx (by simpa [List.isEmpty_iff] using hemp))]
    rw [List.reverse_append, List.reverse_singleton, List.singleton_append,
      List.dropWhile_cons]
    simp only [beq_self_eq_true, if_true]
    rw [dropWhile_beq_of_not_contains (Char.ofNat 42) x.data.reverse hrev,
      List.reverse_reverse]

theorem strStarts_star_append (x : String) : strStarts ("*" ++ x) "*" = true := by
  unfold strStarts
  rw [String.data_append]
  rfl

theorem strEnds_star_append (x : String) (hx : charIn (Char.ofNat 42) x = false)
    (hx0 : x ≠ "") : strEnds ("*" ++ x) "*" = false := by
  unfold strEnds listSuf
  rw [String.data_append]
  have hdx : x.data ≠ [] := by
    intro hnil
    apply hx0
    rw [← strMk_data x, hnil]
  obtain ⟨c, cs, hcons⟩ : ∃ c cs, x.data.reverse = c :: cs := by
    cases hxd : x.data.reverse with
    | nil =>
      exact absurd (by simpa using congrArg List.reverse hxd) hdx
    | cons c cs => exact ⟨c, cs, rfl⟩
  have hcmem : c ∈ x.data := by
    rw [← List.mem_reverse, hcons]
    exact List.mem_cons_self _ _
  have hcne : (Char.ofNat 42 == c) = false := by
    have hxm : Char.ofNat 42 ∉ x.data := by simpa [charIn] using hx
    have : Char.ofNat 42 ≠ c := fun hh => hxm (hh ▸ hcmem)
    simp [this]
  show listPre (String.data "*").reverse (((String.data "*") ++ x.data).reverse) = false
  rw [List.reverse_append]
  rw [hcons]
  show listPre [Char.ofNat 42] ((c :: cs) ++ [Char.ofNat 42]) = false
  unfold listPre
  rw [List.cons_append]
  simp [hcne]

theorem strStarts_append_star (x : String) (hx : charIn (Char.ofNat 42) x = false)
    (hx0 : x ≠ "") : strStarts (x ++ "*") "*" = false := by
  unfold strStarts
  rw [String.data_append]
  have hdx : x.data ≠ [] := by
    intro hnil
    apply hx0
    rw [← strMk_data x, hnil]
  obtain ⟨c, cs, hcons⟩ : ∃ c cs, x.data = c :: cs := by
    cases hxd : x.data with
    | nil => exact absurd hxd hdx
    | cons c cs => exact ⟨c, cs, rfl⟩
  have hcne : (Char.ofNat 42 == c) = false := by
    have hxm : Char.ofNat 42 ∉ x.data := by simpa [charIn] using hx
    have : Char.ofNat 42 ≠ c := fun hh => hxm (hh ▸ (hcons ▸ List.mem_cons_self c cs))
    simp [this]
  rw [hcons]
  show listPre [Char.ofNat 42] ((c :: cs) ++ [Char.ofNat 42]) = false
  unfold listPre
  rw [List.cons_append]
  simp [hcne]

theorem strEnds_append_star (x : String) : strEnds (x ++ "*") "*" = true := by
  unfold strEnds listSuf
  rw [String.data_append, List.reverse_append]
  rfl

theorem getD_replicate_false (n i : Nat) :
    (List.replicate n false).getD i false = false := by
  induction n generalizing i with
  | zero => cases i <;> rfl
  | succ n ih =>
    cases i with
    | zero => rfl
    | succ j =>
      rw [List.replicate_succ, List.getD_cons_succ]
      exact ih j

theorem whereIdx_replicate_false (n : Nat) :
    whereIdx (List.replicate n false) = [] := by
  unfold whereIdx
  apply List.filter_eq_nil_iff.mpr
  intro a _
  rw [getD_replicate_false]
  exact Bool.false_ne_true

theorem wildcardMatches_prefix_pattern (s : Store) (element x : String)
    (hx : charIn (Char.ofNat 42) x = false) (hx0 : x ≠ "")
    (hnm : ∀ L ∈ labelNames s element, strEnds L x = false) :
    wildcardMatches s element ("*" ++ x) = .ok [] := by
  unfold wildcardMatches
  rw [if_pos (strStarts_star_append x)]
  rw [if_neg (by rw [strEnds_star_append x hx hx0]; exact Bool.false_ne_true)]
  rw [stripStar_leading x hx]
  rw [List.filter_eq_nil_iff.mpr
    (fun L hL => by rw [hnm L hL]; exact Bool.false_ne_true)]

theorem wildcardMatches_suffix_pattern (s : Store) (element x : String)
    (hx : charIn (Char.ofNat 42) x = false) (hx0 : x ≠ "")
    (hnm : ∀ L ∈ labelNames s element, strStarts L x = false) :
    wildcardMatches s element (x ++ "*") = .ok [] := by
  unfold wildcardMatches
  rw [if_neg (by rw [strStarts_append_star x hx hx0]; exact Bool.false_ne_true)]
  rw [if_pos (strEnds_append_star x)]
  rw [stripStar_suffix x hx]
  rw [List.filter_eq_nil_iff.mpr
    (fun L hL => by rw [hnm L hL]; exact Bool.false_ne_true)]

theorem parseOneLabel_wildcard_empty (s : Store) (element p : String)
    (hdot : charIn (Char.ofNat 46) p = false)
    (hstar : charIn (Char.ofNat 42) p = true)
    (hw : wildcardMatches s element p = .ok []) :
    parseOneLabel s element p = .ok [] := by
  unfold parseOneLabel
  have hL : (if strSub element p then lastComp p else p) = p := by
    split
    · exact lastComp_no_dot p hdot
    · rfl
  rw [hL]
  unfold parseOneLabelCore
  rw [if_pos hstar, hw]
  rfl

theorem parseLabels_single (s : Store) (element pat : String)
    (h : parseOneLabel s element pat = .ok []) :
    parseLabels s [pat] element = .ok [] := by
  unfold parseLabels parseLabelsGo
  rw [h]
  rfl

/-- C6: a wildcard pattern that matches no existing label of the queried
element kind does not raise: a leading-star pattern `*x` whose stem `x`
ends no existing label, and independently a trailing-star pattern `x*`
whose stem starts no existing label, are each resolved by `_parse_labels`
to the empty label set, so a union-mode `_get_indices` query returns the
empty index array. -/
theorem C6_unmatched_wildcard (s : Store) (element x : String) (allE : Entry)
    (he : element = "pore" ∨ element = "throat")
    (hall : getk s (element ++ ".all") = some allE)
    (hx1 : charIn (Char.ofNat 42) x = false)
    (hx2 : charIn (Char.ofNat 46) x = false)
    (hx0 : x ≠ "") :
    ((∀ L ∈ labelNames s element, strEnds L x = false) →
      getIndices s element ["*" ++ x] "union" = .ok []) ∧
    ((∀ L ∈ labelNames s element, strStarts L x = false) →
      getIndices s element [x ++ "*"] "union" = .ok []) := by
  have hel : parseElementSingle element = .ok element := by
    rcases he with rfl | rfl <;> rfl
  have hcon : (skeys s).contains (element ++ ".all") = true :=
    contains_skeys_of_getk _ _ _ hall
  have hmode := parseModeSingle_mem
    ["union", "intersection", "not_intersection", "not", "difference"] "union"
    (by decide)
  have hcu : (("union" : String) == "union") = true := by decide
  constructor
  · intro hpre
    have hdot : charIn (Char.ofNat 46) ("*" ++ x) = false :=
      charIn_concat_false _ "*" x (by decide) hx2
    have hpl := parseLabels_single s element ("*" ++ x)
      (parseOneLabel_wildcard_empty s element ("*" ++ x) hdot
        (charIn_star_append x)
        (wildcardMatches_prefix_pattern s element x hx1 hx0 hpre))
    unfold getIndices
    rw [hmode]
    dsimp only
    rw [hel]
    dsimp only
    rw [hpl]
    dsimp only
    rw [hcon]
    rw [if_neg (by simp), if_pos hcu]
    dsimp only [foldMasks, whereEntry]
    rw [whereIdx_replicate_false]
  · intro hsuf
    have hdot : charIn (Char.ofNat 46) (x ++ "*") = false :=
      charIn_concat_false _ x "*" hx2 (by decide)
    have hpl := parseLabels_single s element (x ++ "*")
      (parseOneLabel_wildcard_empty s element (x ++ "*") hdot
        (charIn_append_star x)
        (wildcardMatches_suffix_pattern s element x hx1 hx0 hsuf))
    unfold getIndices
    rw [hmode]
    dsimp only
    rw [hel]
    dsimp only
    rw [hpl]
    dsimp only
    rw [hcon]
    rw [if_neg (by simp), if_pos hcu]
    dsimp only [foldMasks, whereEntry]
    rw [whereIdx_replicate_false]

/-- A concrete store for the query evaluations: three pores carrying the
labels `top = [T, F, T]` and `left = [T, T, F]`, and two throats. -/
def exampleStore : Store :=
  [("pore.all", .boolArr [true, true, true]),
   ("throat.all", .boolArr [true, true]),
   ("pore.top", .boolArr [true, false, true]),
   ("pore.left", .boolArr [true, true, false])]

/-- Witness for C6 on a concrete store: `*le` matches nothing even though
the label `left` starts with `le`, and `zz*` matches nothing. -/
theorem C6_unmatched_wildcard_witness :
    getIndices exampleStore "pore" ["*" ++ "le"] "union" = .ok [] ∧
    getIndices exampleStore "pore" ["zz" ++ "*"] "union" = .ok [] := by
  constructor
  · exact (C6_unmatched_wildcard exampleStore "pore" "le"
      (.boolArr [true, true, true]) (Or.inl rfl) rfl (by decide) (by decide)
      (by decide)).1 (by decide)
  · exact (C6_unmatched_wildcard exampleStore "pore" "zz"
      (.boolArr [true, true, true]) (Or.inl rfl) rfl (by decide) (by decide)
      (by decide)).2 (by decide)

/-- C1: the spec (and the `pores` docstring) says the index query accepts
exactly the modes `any`/`all`/`one`/`none` with at-least-one / every /
exactly-one / none-of semantics.  The code rejects all four of these names
(`_parse_mode` raises) and instead accepts the legacy names
`union`/`intersection`/`not_intersection`/`not`, which do implement exactly
those four semantics, as evaluated here on a concrete store with
`top = [T, F, T]` and `left = [T, T, F]`. -/
theorem C1_mode_names_divergence :
    pores exampleStore ["top", "left"] "any" =
      .error "mode must be one of the allowed modes" ∧
    pores exampleStore ["top", "left"] "all" =
      .error "mode must be one of the allowed modes" ∧
    pores exampleStore ["top", "left"] "one" =
      .error "mode must be one of the allowed modes" ∧
    pores exampleStore ["top", "left"] "none" =
      .error "mode must be one of the allowed modes" ∧
    pores exampleStore ["top", "left"] "union" = .ok [0, 1, 2] ∧
    pores exampleStore ["top", "left"] "intersection" = .ok [0] ∧
    pores exampleStore ["top", "left"] "not_intersection" = .ok [1, 2] ∧
    pores exampleStore ["top", "left"] "not" = .ok [] :=
  ⟨rfl, rfl, rfl, rfl, rfl, rfl, rfl, rfl⟩

/-- Witness for C10: a concrete exactly-one-of query returns canonical
indices. -/
theorem C10_canonical_indices_witness :
    ∃ ind, getIndices exampleStore "pore" ["top", "left"] "not_intersection" =
      .ok ind ∧ List.Pairwise (· < ·) ind ∧ ∀ i ∈ ind, i < 3 :=
  C10_canonical_indices exampleStore "pore" "not_intersection" ["top", "left"]
    (.boolArr [true, true, true]) 3 (Or.inl rfl)
    (Or.inr (Or.inr (Or.inl rfl))) rfl rfl
    (by
      intro L hL
      simp only [List.mem_cons, List.mem_singleton, List.not_mem_nil,
        or_false] at hL
      rcases hL with rfl | rfl
      · exact ⟨by decide, by decide, [true, false, true], rfl, rfl⟩
      · exact ⟨by decide, by decide, [true, true, false], rfl, rfl⟩)

/-! `Base.Np`, `Base.Nt`, `Base.Ps`, `Base.Ts`, `Base._parse_indices`,
`Base._tomask` and `Base.toindices` (claim C9). -/

/-- `Base.Np`: the first dimension of `self.get("pore.all")` (an error when
that key is missing, as `sp.shape(None)[0]` raises). -/
def NpE (s : Store) : Except String Nat :=
  match getk s "pore.all" with
  | some e => Except.ok (entryLen e)
  | none => Except.error "pore.all is not defined"

/-- `Base.Nt`. -/
def NtE (s : Store) : Except String Nat :=
  match getk s "throat.all" with
  | some e => Except.ok (entryLen e)
  | none => Except.error "throat.all is not defined"

/-- `sp.arange(0, n)` (`Base.Ps` / `Base.Ts`) as integer values. -/
def arangeInt (n : Nat) : List Int := (List.range n).map (fun i => Int.ofNat i)

/-- Numpy boolean-mask indexing `xs[mask]` (lengths agree at call sites). -/
def boolIndex (xs : List Int) (mask : List Bool) : List Int :=
  ((xs.zip mask).filter (fun p => p.2)).map (fun p => p.1)

/-- `Base._parse_indices(indices)`: a numeric array passes through (cast to
int); a boolean mask of length `Np` (tested first) selects `self.Ps[mask]`,
one of length `Nt` selects `self.Ts[mask]`, and any other boolean length
raises. -/
def parseIndices (s : Store) (ind : Entry) : Except String (List Int) :=
  match ind with
  | .numArr xs => Except.ok xs
  | .boolArr mask =>
    match NpE s with
    | .error e => .error e
    | .ok np =>
      if mask.length = np then Except.ok (boolIndex (arangeInt np) mask)
      else
        match NtE s with
        | .error e => .error e
        | .ok nt =>
          if mask.length = nt then Except.ok (boolIndex (arangeInt nt) mask)
          else Except.error "Boolean list of locations must be either Np nor Nt long"

/-- The numpy fancy assignment `mask = zeros(N); mask[ind] = True`:
negative indices wrap, out-of-range indices raise `IndexError`. -/
def maskAssign (N : Nat) (ind : List Int) : Except String (List Bool) :=
  match ind.mapM (fun i =>
    if 0 ≤ i ∧ i < (N : Int) then Except.ok i.toNat
    else if -(N : Int) ≤ i ∧ i < 0 then Except.ok (i + N).toNat
    else (Except.error "IndexError: index out of bounds" : Except String Nat)) with
  | .error e => .error e
  | .ok norm => Except.ok ((List.range N).map (fun j => norm.contains j))

/-- `Base._tomask(indices, element)`. -/
def tomask (s : Store) (indices : Entry) (element : String) :
    Except String (List Bool) :=
  match parseElementSingle element with
  | .error e => .error e
  | .ok element =>
    match parseIndices s indices with
    | .error e => .error e
    | .ok ind =>
      match getk s (element ++ ".all") with
      | none => .error ("KeyError: " ++ element ++ ".all")
      | some allE => maskAssign (entryLen allE) ind

/-- `Base.toindices(mask)`: defers entirely to `_parse_indices`. -/
def toindices (s : Store) (mask : Entry) : Except String (List Int) :=
  parseIndices s mask

theorem boolIndex_map (f : Nat → Int) (p : Nat → Bool) (r : List Nat) :
    boolIndex (r.map f) (r.map p) = (r.filter p).map f := by
  unfold boolIndex
  rw [List.zip_map' f p r]
  rw [List.filter_map]
  rw [List.map_map]
  rfl

theorem filter_range_contains (norm : List Nat) (np : Nat)
    (hs : List.Pairwise (· < ·) norm) (hb : ∀ x ∈ norm, x < np) :
    (List.range np).filter (fun j => norm.contains j) = norm := by
  haveI : IsAntisymm Nat (· < ·) :=
    ⟨fun a b h1 h2 => absurd h2 (Nat.lt_asymm h1)⟩
  have hperm : List.Perm ((List.range np).filter (fun j => norm.contains j)) norm := by
    apply (List.perm_ext_iff_of_nodup ((List.nodup_range np).filter _)
      (hs.imp (fun h => Nat.ne_of_lt h))).2
    intro a
    constructor
    · intro ha
      have hfa := List.mem_filter.mp ha
      simpa using hfa.2
    · intro ha
      refine List.mem_filter.mpr ⟨List.mem_range.mpr (hb a ha), by simpa using ha⟩
  exact List.eq_of_perm_of_sorted hperm
    ((List.sorted_lt_range np).sublist (List.filter_sublist _)) hs

theorem mapM_ok_of (f : Int → Except String Nat) (g : Int → Nat) :
    ∀ I : List Int, (∀ i ∈ I, f i = .ok (g i)) → I.mapM f = .ok (I.map g) := by
  intro I
  induction I with
  | nil => intro _; rfl
  | cons a as ih =>
    intro h
    rw [List.mapM_cons, h a (List.mem_cons_self _ _),
      ih (fun i hi => h i (List.mem_cons_of_mem _ hi))]
    rfl

theorem maskAssign_inrange (N : Nat) (I : List Int)
    (h : ∀ i ∈ I, 0 ≤ i ∧ i < (N : Int)) :
    maskAssign N I =
      .ok ((List.range N).map (fun j => (I.map Int.toNat).contains j)) := by
  unfold maskAssign
  rw [mapM_ok_of _ Int.toNat I (fun i hi => if_pos (h i hi))]

theorem mask_roundtrip (n : Nat) (I : List Int)
    (hsort : List.Pairwise (· < ·) I)
    (h : ∀ i ∈ I, 0 ≤ i ∧ i < (n : Int)) :
    boolIndex (arangeInt n)
      ((List.range n).map (fun j => (I.map Int.toNat).contains j)) = I := by
  unfold arangeInt
  rw [boolIndex_map]
  rw [filter_range_contains (I.map Int.toNat) n
    (by
      rw [List.pairwise_map]
      exact hsort.imp_of_mem (fun ha hb hr => by
        have h1 := h _ ha
        omega))
    (by
      intro x hx
      obtain ⟨i, hi, rfl⟩ := List.mem_map.mp hx
      have h1 := h i hi
      omega)]
  rw [List.map_map]
  have hco : ∀ i ∈ I, (Int.ofNat ∘ Int.toNat) i = id i := by
    intro i hi
    have h1 := h i hi
    simp only [Function.comp, id]
    exact Int.toNat_of_nonneg h1.1
  rw [List.map_congr_left hco, List.map_id]

/-- C9: converting a strictly increasing, duplicate-free list of in-range
pore indices to a boolean mask with `_tomask` and back with `toindices`
recovers exactly the original list; the throat round-trip holds as well
whenever `Np` differs from `Nt` (the mask length is tested against `Np`
first). -/
theorem C9_tomask_toindices_roundtrip (s : Store) (np nt : Nat)
    (pa ta : List Bool)
    (hp : getk s "pore.all" = some (.boolArr pa)) (hpl : pa.length = np)
    (ht : getk s "throat.all" = some (.boolArr ta)) (htl : ta.length = nt)
    (I : List Int) (hsort : List.Pairwise (· < ·) I) :
    ((∀ i ∈ I, 0 ≤ i ∧ i < (np : Int)) →
      ∃ mask, tomask s (.numArr I) "pore" = .ok mask ∧
        toindices s (.boolArr mask) = .ok I) ∧
    (np ≠ nt → (∀ i ∈ I, 0 ≤ i ∧ i < (nt : Int)) →
      ∃ mask, tomask s (.numArr I) "throat" = .ok mask ∧
        toindices s (.boolArr mask) = .ok I) := by
  have hNp : NpE s = .ok np := by
    unfold NpE
    rw [hp]
    dsimp only
    rw [entryLen, hpl]
  have hNt : NtE s = .ok nt := by
    unfold NtE
    rw [ht]
    dsimp only
    rw [entryLen, htl]
  constructor
  · intro hmem
    refine ⟨(List.range np).map (fun j => (I.map Int.toNat).contains j), ?_, ?_⟩
    · unfold tomask
      rw [show parseElementSingle "pore" = .ok "pore" from rfl]
      dsimp only
      rw [show parseIndices s (.numArr I) = .ok I from rfl]
      dsimp only
      rw [show ("pore" ++ ".all" : String) = "pore.all" from rfl, hp]
      dsimp only
      rw [show entryLen (Entry.boolArr pa) = np from by rw [entryLen, hpl]]
      exact maskAssign_inrange np I hmem
    · unfold toindices parseIndices
      rw [hNp]
      dsimp only
      rw [if_pos (by rw [List.length_map, List.length_range])]
      rw [mask_roundtrip np I hsort hmem]
  · intro hne hmem
    refine ⟨(List.range nt).map (fun j => (I.map Int.toNat).contains j), ?_, ?_⟩
    · unfold tomask
      rw [show parseElementSingle "throat" = .ok "throat" from rfl]
      dsimp only
      rw [show parseIndices s (.numArr I) = .ok I from rfl]
      dsimp only
      rw [show ("throat" ++ ".all" : String) = "throat.all" from rfl, ht]
      dsimp only
      rw [show entryLen (Entry.boolArr ta) = nt from by rw [entryLen, htl]]
      exact maskAssign_inrange nt I hmem
    · unfold toindices parseIndices
      rw [hNp]
      dsimp only
      rw [if_neg (by
        rw [List.length_map, List.length_range]
        exact fun hh => hne hh.symm)]
      rw [hNt]
      dsimp only
      rw [if_pos (by rw [List.length_map, List.length_range])]
      rw [mask_roundtrip nt I hsort hmem]

/-- Witness for C9 on a concrete store with 3 pores and 2 throats. -/
theorem C9_tomask_toindices_roundtrip_witness :
    (∃ mask, tomask (init 3 2) (.numArr [0, 2]) "pore" = .ok mask ∧
      toindices (init 3 2) (.boolArr mask) = .ok [0, 2]) ∧
    (∃ mask, tomask (init 3 2) (.numArr [1]) "throat" = .ok mask ∧
      toindices (init 3 2) (.boolArr mask) = .ok [1]) := by
  constructor
  · exact (C9_tomask_toindices_roundtrip (init 3 2) 3 2
      (List.replicate 3 true) (List.replicate 2 true) rfl rfl rfl rfl
      [0, 2] (by decide)).1 (by decide)
  · exact (C9_tomask_toindices_roundtrip (init 3 2) 3 2
      (List.replicate 3 true) (List.replicate 2 true) rfl rfl rfl rfl
      [1] (by decide)).2 (by decide) (by decide)

/-! The generic conduit conductance model
(`src/openpnm/models/physics/misc.py`, `generic_conductance`), claim C7.
Non-negative float values are modelled as extended non-negative reals, for
which `1 / ∞ = 0` and division by zero giving `∞` agree with IEEE
arithmetic on non-negative operands; `sp.inf` is `⊤`.  Signed float
values (the pressures and the flow rate `Qt` of the
`taylor_aris_diffusion` branch) are modelled as reals; they enter the
conductances only through the squared Peclet number.  The model computes
one conduit (one row of the vectorized computation), taking the conduit's
own pressure/hydraulic data as inputs where the source gathers them from
the phase arrays. -/

inductive TransportType where
  | flow
  | diffusion
  | taylor_aris_diffusion
  | other : String → TransportType

/-- The Peclet number of one segment in the `taylor_aris_diffusion`
branch: `Qt = -gh * (P2 - P1)` (`sp.diff` of the two endpoint pressures),
`u = Qt / A`, `Pe = u * ((4 * A / pi) ** 0.5) / D`. -/
noncomputable def taylorPe (gh P1 P2 : ℝ) (A D : ENNReal) : ℝ :=
  (-gh * (P2 - P1)) / A.toReal * Real.sqrt (4 * A.toReal / Real.pi) / D.toReal

/-- The unmasked conductance formula of one half-pore or throat segment
with area `A`, diffusivity `D` and length `L`; the hydraulic conductance
`gh` and endpoint pressures `P1`, `P2` are used only by the
`taylor_aris_diffusion` branch.  The factor `1 + Pe ** 2 / 192` is at
least one, so `ENNReal.ofReal` is exact on it. -/
noncomputable def segG (tt : TransportType) (gh P1 P2 : ℝ)
    (A D L : ENNReal) : ENNReal :=
  match tt with
  | .flow => A ^ 2 / (8 * ENNReal.ofReal Real.pi * D * L)
  | .diffusion => D * A / L
  | .taylor_aris_diffusion =>
    D * ENNReal.ofReal (1 + (taylorPe gh P1 P2 A D) ^ 2 / 192) * A / L
  | .other _ => 0

/-- `generic_conductance` for one conduit: zero-length segments get
infinite conductance (`g1[~m1] = g2[~m2] = gt[~mt] = sp.inf`), the others
the formula of the transport type (`flow`, `diffusion` or
`taylor_aris_diffusion`), and the result is the shape-factor-weighted
series (harmonic) combination `(1/gt/SFt + 1/g1/SF1 + 1/g2/SF2)**(-1)`.
An unknown transport type raises. -/
noncomputable def generic_conductance (tt : TransportType) (gh P1 P2 : ℝ)
    (A1 At A2 D1 Dt D2 L1 Lt L2 SF1 SFt SF2 : ENNReal) :
    Except String ENNReal :=
  match tt with
  | .other _ =>
    .error "Unknown keyword for transport_type"
  | _ =>
    Except.ok ((1 / (if Lt = 0 then ⊤ else segG tt gh P1 P2 At Dt Lt) / SFt +
      1 / (if L1 = 0 then ⊤ else segG tt gh P1 P2 A1 D1 L1) / SF1 +
      1 / (if L2 = 0 then ⊤ else segG tt gh P1 P2 A2 D2 L2) / SF2)⁻¹)

/-- C7: for every computing transport type (`flow`, `diffusion`,
`taylor_aris_diffusion`) no error is raised and a zero-length half-pore or
throat segment contributes exactly zero to the series sum (its conductance
is infinite), so the returned harmonic combination is that of the
remaining non-zero-length segments alone. -/
theorem C7_zero_length_segment_inert (tt : TransportType) (gh P1 P2 : ℝ)
    (A1 At A2 D1 Dt D2 L1 Lt L2 SF1 SFt SF2 : ENNReal)
    (htt : tt = .flow ∨ tt = .diffusion ∨ tt = .taylor_aris_diffusion) :
    generic_conductance tt gh P1 P2 A1 At A2 D1 Dt D2 L1 Lt L2 SF1 SFt SF2 =
      .ok (((if Lt = 0 then 0 else 1 / segG tt gh P1 P2 At Dt Lt / SFt) +
        (if L1 = 0 then 0 else 1 / segG tt gh P1 P2 A1 D1 L1 / SF1) +
        (if L2 = 0 then 0 else 1 / segG tt gh P1 P2 A2 D2 L2 / SF2))⁻¹) := by
  have hterm : ∀ (L g SF : ENNReal),
      1 / (if L = 0 then ⊤ else g) / SF = (if L = 0 then 0 else 1 / g / SF) := by
    intro L g SF
    by_cases hL : L = 0
    · rw [if_pos hL, if_pos hL]
      simp
    · rw [if_neg hL, if_neg hL]
  have hok : generic_conductance tt gh P1 P2 A1 At A2 D1 Dt D2 L1 Lt L2 SF1 SFt SF2 =
      Except.ok ((1 / (if Lt = 0 then ⊤ else segG tt gh P1 P2 At Dt Lt) / SFt +
        1 / (if L1 = 0 then ⊤ else segG tt gh P1 P2 A1 D1 L1) / SF1 +
        1 / (if L2 = 0 then ⊤ else segG tt gh P1 P2 A2 D2 L2) / SF2)⁻¹) := by
    rcases htt with rfl | rfl | rfl <;> rfl
  rw [hok, hterm Lt _ SFt, hterm L1 _ SF1, hterm L2 _ SF2]

/-- Witness for C7: a Taylor-Aris conduit whose first half-pore has zero
length. -/
theorem C7_zero_length_segment_inert_witness :
    generic_conductance .taylor_aris_diffusion 1 0 1 1 1 1 1 1 1 0 1 1 1 1 1 =
      .ok (((if (1 : ENNReal) = 0 then 0
          else 1 / segG .taylor_aris_diffusion 1 0 1 1 1 1 / 1) +
        (if (0 : ENNReal) = 0 then 0
          else 1 / segG .taylor_aris_diffusion 1 0 1 1 1 0 / 1) +
        (if (1 : ENNReal) = 0 then 0
          else 1 / segG .taylor_aris_diffusion 1 0 1 1 1 1 / 1))⁻¹) :=
  C7_zero_length_segment_inert .taylor_aris_diffusion 1 0 1
    1 1 1 1 1 1 0 1 1 1 1 1 (Or.inr (Or.inr rfl))

/-! The conductance-matrix assembler, claim C8.  Modelled from the spec:
the transport solver (`GenericTransport._build_A`) is not part of this
source snapshot, only its package declarations and callers are, so the
assembler is taken from §4.2 of the specification: starting from the zero
N×N matrix, for each edge `(i, j)` with conductance `g` do
`A[i,i] += g`, `A[j,j] += g`, `A[i,j] -= g`, `A[j,i] -= g`. -/

def addEdge (N : Nat) (A : Fin N → Fin N → ℚ) (i j : Fin N) (g : ℚ) :
    Fin N → Fin N → ℚ :=
  fun a b =>
    A a b + (if a = i ∧ b = i then g else 0) + (if a = j ∧ b = j then g else 0)
      - (if a = i ∧ b = j then g else 0) - (if a = j ∧ b = i then g else 0)

/-- Modelled from the spec: assemble the conductance matrix of an edge
list. -/
def conductanceMatrix (N : Nat) (edges : List (Fin N × Fin N × ℚ)) :
    Fin N → Fin N → ℚ :=
  edges.foldl (fun A e => addEdge N A e.1 e.2.1 e.2.2) (fun _ _ => 0)

theorem addEdge_symm (N : Nat) (A : Fin N → Fin N → ℚ) (i j : Fin N) (g : ℚ)
    (hA : ∀ a b, A a b = A b a) :
    ∀ a b, addEdge N A i j g a b = addEdge N A i j g b a := by
  intro a b
  unfold addEdge
  rw [hA a b]
  by_cases h1 : a = i <;> by_cases h2 : a = j <;> by_cases h3 : b = i <;>
    by_cases h4 : b = j <;> simp [h1, h2, h3, h4, and_comm] <;> ring

theorem addEdge_rowsum (N : Nat) (A : Fin N → Fin N → ℚ) (i j : Fin N) (g : ℚ)
    (hA : ∀ a, (Finset.univ.sum (fun b => A a b)) = 0) :
    ∀ a, (Finset.univ.sum (fun b => addEdge N A i j g a b)) = 0 := by
  intro a
  unfold addEdge
  have hsplit : ∀ b : Fin N,
      A a b + (if a = i ∧ b = i then g else 0) + (if a = j ∧ b = j then g else 0)
        - (if a = i ∧ b = j then g else 0) - (if a = j ∧ b = i then g else 0) =
      A a b + ((if a = i then (if b = i then g else 0) else 0) +
        (if a = j then (if b = j then g else 0) else 0) -
        (if a = i then (if b = j then g else 0) else 0) -
        (if a = j then (if b = i then g else 0) else 0)) := by
    intro b
    by_cases h1 : a = i
    · by_cases h2 : a = j
      · have hij : i = j := by rw [← h1, ← h2]
        subst hij
        simp [h1]
      · have hij : i ≠ j := fun hh => h2 (h1.trans hh)
        simp [h1, h2, hij]
        ring
    · by_cases h2 : a = j
      · have hij : j ≠ i := fun hh => h1 (h2.trans hh)
        simp [h1, h2, hij]
        ring
      · simp [h1, h2]
  rw [Finset.sum_congr rfl (fun b _ => hsplit b), Finset.sum_add_distrib, hA a]
  rw [Finset.sum_sub_distrib, Finset.sum_sub_distrib, Finset.sum_add_distrib]
  by_cases h1 : a = i <;> by_cases h2 : a = j <;>
    simp [h1, h2, Finset.sum_ite_eq', Finset.mem_univ]

theorem assemble_inv (N : Nat) :
    ∀ (edges : List (Fin N × Fin N × ℚ)) (A : Fin N → Fin N → ℚ),
      (∀ a b, A a b = A b a) →
      (∀ a, (Finset.univ.sum (fun b => A a b)) = 0) →
      (∀ a b, (edges.foldl (fun M e => addEdge N M e.1 e.2.1 e.2.2) A) a b =
        (edges.foldl (fun M e => addEdge N M e.1 e.2.1 e.2.2) A) b a) ∧
      (∀ a, (Finset.univ.sum
        (fun b => (edges.foldl (fun M e => addEdge N M e.1 e.2.1 e.2.2) A) a b)) = 0) := by
  intro edges
  induction edges with
  | nil => exact fun A hs hr => ⟨hs, hr⟩
  | cons e rest ih =>
    intro A hs hr
    simp only [List.foldl_cons]
    exact ih (addEdge N A e.1 e.2.1 e.2.2)
      (addEdge_symm N A e.1 e.2.1 e.2.2 hs)
      (addEdge_rowsum N A e.1 e.2.1 e.2.2 hr)

/-- C8 (spec-modelled): for every edge table over `N` nodes and every
assignment of non-negative edge conductances, the assembled conductance
matrix is symmetric and has zero row sums (it is the weighted graph
Laplacian), before any boundary-condition application. -/
theorem C8_laplacian_symmetric_zero_rowsum (N : Nat)
    (edges : List (Fin N × Fin N × ℚ)) (hg : ∀ e ∈ edges, 0 ≤ e.2.2) :
    (∀ a b, conductanceMatrix N edges a b = conductanceMatrix N edges b a) ∧
    (∀ a, (Finset.univ.sum (fun b => conductanceMatrix N edges a b)) = 0) := by
  unfold conductanceMatrix
  exact assemble_inv N edges (fun _ _ => 0) (fun _ _ => rfl)
    (fun _ => Finset.sum_const_zero)

/-- Witness for C8: a two-node network with one conducting edge. -/
theorem C8_laplacian_witness :
    conductanceMatrix 2 [((0 : Fin 2), (1 : Fin 2), (3 : ℚ))] 0 1 =
      conductanceMatrix 2 [((0 : Fin 2), (1 : Fin 2), (3 : ℚ))] 1 0 ∧
    (Finset.univ.sum
      (fun b => conductanceMatrix 2 [((0 : Fin 2), (1 : Fin 2), (3 : ℚ))] 0 b)) = 0 := by
  constructor
  · exact (C8_laplacian_symmetric_zero_rowsum 2 [((0 : Fin 2), (1 : Fin 2), (3 : ℚ))]
      (by intro e he; simp at he; rw [he]; norm_num)).1 0 1
  · exact (C8_laplacian_symmetric_zero_rowsum 2 [((0 : Fin 2), (1 : Fin 2), (3 : ℚ))]
      (by intro e he; simp at he; rw [he]; norm_num)).2 0

end OpenPNM
